import Mathlib

/-!
# A verification model of pypowsybl's `cpp/src/bindings.cpp`

This file gives a shallow embedding of the columnar data-exchange layer of
`bindings.cpp`: building dataframes from typed columns (`createDataframe`),
releasing them (`deleteDataframe`), aggregating them (`createDataframeArray`
and its custom deleter), exposing series data to the consumer
(the `series.data` property, `seriesAsNumpyArray`), and the load-flow
parameter translator (`initLoadFlowParameters` and the
`countries_to_balance` setter).

Native memory is modelled by an explicit heap: a map from addresses (`Nat`)
to typed blocks, together with a bump allocator and a log of freed
addresses (in order).  `free` is partial: freeing an address that is not
currently allocated (double free, or freeing garbage) is undefined
behaviour in C++ and is modelled as `none`.  The helper functions of
`pypowsybl.h` / `pypowsybl.cpp` (`copyVectorStringToCharPtrPtr`,
`copyVectorDouble`, `copyVectorInt`, `deleteCharPtrPtr`,
`toVector<std::string>`, `createLoadFlowParameters`) are not part of the
sources under verification; they are modelled from the spec where noted.

Numeric conventions: C `double` values are carried as opaque 64-bit
patterns (`Nat`), since the code only ever copies them; C `int` is a
32-bit integer (casts from Python fail outside its range); C `bool` is one
byte and `int` four bytes, little endian, which matters when the
`series.data` property views an `int`-backed boolean column with a one-byte
bool dtype.
-/

namespace Pypowsybl

/-- One column's raw data descriptor: the C struct `array` of
`pypowsybl.h` (`void* ptr; int length`).  `ptr` is `none` when the field
was never assigned (the C code leaves it indeterminate in that case). -/
structure arrayS where
  ptr : Option Nat
  length : Nat
  deriving DecidableEq, Repr

/-- The C struct `series`: an owned name (address of a C string), an
index flag, a type tag (`0` string, `1` double, `2` int, `3` boolean) and
the data descriptor. -/
structure series where
  name : Nat
  index : Int
  type : Int
  data : arrayS
  deriving DecidableEq, Repr

/-- The C struct `dataframe`: a pointer to a `series[]` block plus the
number of series. -/
structure dataframe where
  series : Nat
  series_count : Nat
  deriving DecidableEq, Repr

/-- The C struct `dataframe_array`: a pointer to a `dataframe[]` block
plus the number of dataframes. -/
structure dataframe_array where
  dataframes : Nat
  dataframes_count : Nat
  deriving DecidableEq, Repr

/-- The C struct `load_flow_parameters`.  Scalar fields are carried as
`Int`; `countriesToBalance` is the address of a `char**` block and
`countriesToBalanceCount` its length (source fields
`countries_to_balance` / `countries_to_balance_count`; the last scalar is
source field `dc_use_transformer_ratio`, renamed here). -/
structure load_flow_parameters where
  voltageInitMode : Int
  transformerVoltageControlOn : Int
  noGeneratorReactiveLimits : Int
  phaseShifterRegulationOn : Int
  twtSplitShuntAdmittance : Int
  simulShunt : Int
  readSlackBus : Int
  writeSlackBus : Int
  distributedSlack : Int
  balanceType : Int
  dcUseTransformerRatioFlag : Int
  countriesToBalance : Nat
  countriesToBalanceCount : Nat
  connectedComponentMode : Int
  deriving DecidableEq, Repr

/-- One allocated native block.  Each constructor corresponds to one kind
of allocation made by the code under verification. -/
inductive Block where
  /-- An owned NUL-terminated string (`strdup`, or one string of a
  `char**`). -/
  | cstr (s : String)
  /-- A `char**` block: an array of addresses of `cstr` blocks. -/
  | ptrArr (ps : List Nat)
  /-- A `double[]` block; elements are opaque 64-bit patterns. -/
  | dblArr (vs : List Nat)
  /-- An `int[]` block (also the storage `createDataframe` uses for
  boolean columns, as 0/1 values). -/
  | intArr (vs : List Int)
  /-- A `series[]` block (`new series[n]`). -/
  | seriesArr (cols : List series)
  /-- A `dataframe` header block (`new dataframe()`). -/
  | dfHdr (df : dataframe)
  /-- A `dataframe[]` block (`new dataframe[n]`). -/
  | dfArr (dfs : List dataframe)
  /-- A `dataframe_array` header block (`new dataframe_array()`). -/
  | dfArrHdr (da : dataframe_array)
  /-- A `load_flow_parameters` block (`new load_flow_parameters()`). -/
  | lfp (p : load_flow_parameters)
  deriving DecidableEq, Repr

/-- The native heap: contents of each address, the bump-allocation
frontier, and the ordered log of freed addresses (used to state in which
order destructors release memory). -/
structure Heap where
  mem : Nat → Option Block
  next : Nat
  log : List Nat

/-- Allocate a fresh block, returning the new heap and the address. -/
def Heap.alloc (h : Heap) (b : Block) : Heap × Nat :=
  (⟨fun a => if a = h.next then some b else h.mem a, h.next + 1, h.log⟩, h.next)

/-- Free an address.  Freeing an address that is not currently allocated
is undefined behaviour (`none`). -/
def Heap.free (h : Heap) (a : Nat) : Option Heap :=
  match h.mem a with
  | some _ => some ⟨fun x => if x = a then none else h.mem x, h.next, h.log ++ [a]⟩
  | none => none

/-- Overwrite the block stored at an address.  The model only ever stores
to addresses it has just allocated. -/
def Heap.store (h : Heap) (a : Nat) (b : Block) : Heap :=
  ⟨fun x => if x = a then some b else h.mem x, h.next, h.log⟩

/-- A well-formed heap has nothing allocated at or beyond the allocation
frontier. -/
def Heap.WF (h : Heap) : Prop := ∀ a, h.next ≤ a → h.mem a = none

/-- The empty heap. -/
def emptyHeap : Heap := ⟨fun _ => none, 0, []⟩

/-- Association-list lookup used to build concrete test heaps. -/
def assocFind : List (Nat × Block) → Nat → Option Block
  | [], _ => none
  | (k, b) :: rest, a => if a = k then some b else assocFind rest a

/-- Build a concrete heap from an association list and a frontier. -/
def mkHeap (l : List (Nat × Block)) (n : Nat) : Heap :=
  ⟨fun a => assocFind l a, n, []⟩

theorem emptyHeap_WF : emptyHeap.WF := fun _ _ => rfl

theorem assocFind_eq_none (l : List (Nat × Block)) (a : Nat)
    (hl : ∀ p ∈ l, p.1 ≠ a) : assocFind l a = none := by
  induction l with
  | nil => rfl
  | cons p rest ih =>
    have hpa : a ≠ p.1 := fun hh => hl p (by simp) (hh ▸ rfl)
    simpa [assocFind, hpa] using ih fun q hq => hl q (by simp [hq])

theorem mkHeap_WF (l : List (Nat × Block)) (n : Nat)
    (hb : ∀ p ∈ l, p.1 < n) : (mkHeap l n).WF := by
  intro a ha
  have ha' : n ≤ a := ha
  exact assocFind_eq_none l a fun p hp => by
    have := hb p hp; omega

/-! ## Helper routines of `pypowsybl.h` / `pypowsybl.cpp`

These are code of the repository that is not among the sources under
verification; they are modelled from the spec. -/

/-- Allocate an owned copy of each string in order (the per-string
`strdup`-like allocations of `copyVectorStringToCharPtrPtr`), returning
the addresses in order. -/
def allocStrings : Heap → List String → Heap × List Nat
  | h, [] => (h, [])
  | h, s :: rest =>
    let (h1, a) := h.alloc (.cstr s)
    let (h2, rs) := allocStrings h1 rest
    (h2, a :: rs)

/-- Modelled from the spec: `pypowsybl::copyVectorStringToCharPtrPtr`
(declared in `pypowsybl.h`, not among the sources here).  Per the spec
(section 4.1, STRING case): for each input string allocate an owned
NUL-terminated copy, then assemble an array of these pointers. -/
def copyVectorStringToCharPtrPtr (h : Heap) (vs : List String) : Heap × Nat :=
  let (h1, ps) := allocStrings h vs
  h1.alloc (.ptrArr ps)

/-- Modelled from the spec: `pypowsybl::copyVectorDouble` (declared in
`pypowsybl.h`).  Per the spec (section 4.1): allocate a flat array and
copy the values verbatim. -/
def copyVectorDouble (h : Heap) (vs : List Nat) : Heap × Nat :=
  h.alloc (.dblArr vs)

/-- Modelled from the spec: `pypowsybl::copyVectorInt` (declared in
`pypowsybl.h`).  Per the spec (section 4.1): allocate a flat array and
copy the values verbatim (BOOL is stored as 0/1 in this int encoding). -/
def copyVectorInt (h : Heap) (vs : List Int) : Heap × Nat :=
  h.alloc (.intArr vs)

/-- Free the addresses of a list in order (the loop inside
`deleteCharPtrPtr`). -/
def freeList : Heap → List Nat → Option Heap
  | h, [] => some h
  | h, a :: rest => (h.free a).bind fun h1 => freeList h1 rest

/-- Modelled from the spec: `pypowsybl::deleteCharPtrPtr` (declared in
`pypowsybl.h`).  Per the spec (section 4.4, STRING case): free every
individual string (the first `len` entries of the pointer array), then
free the pointer array itself. -/
def deleteCharPtrPtr (h : Heap) (p : Nat) (len : Nat) : Option Heap :=
  match h.mem p with
  | some (.ptrArr ps) =>
    if len ≤ ps.length then
      (freeList h (ps.take len)).bind fun h1 => h1.free p
    else none
  | _ => none

/-- Read one C string from the heap. -/
def readCStr (h : Heap) (a : Nat) : Option String :=
  match h.mem a with
  | some (.cstr s) => some s
  | _ => none

/-- Read a list of C strings at the given addresses. -/
def readCStrList : Heap → List Nat → Option (List String)
  | _, [] => some []
  | h, a :: rest =>
    (readCStr h a).bind fun s => (readCStrList h rest).map fun ss => s :: ss

/-- Modelled from the spec: materialize `n` strings from a `char**`
block.  This is both `pypowsybl::toVector<std::string>` (used by the
`series.data` property for string series) and the
`std::vector<std::string>(ptr, ptr + count)` constructions at
`bindings.cpp` lines 112 and 347. -/
def toVectorString (h : Heap) (p : Nat) (n : Nat) : Option (List String) :=
  match h.mem p with
  | some (.ptrArr ps) => if n ≤ ps.length then readCStrList h (ps.take n) else none
  | _ => none

/-- The string addresses `toVectorString h p n` would read (used to state
frame conditions). -/
def strAddrs (h : Heap) (p : Nat) (n : Nat) : List Nat :=
  match h.mem p with
  | some (.ptrArr ps) => ps.take n
  | _ => []

/-! ## `deleteDataframe` (`bindings.cpp` lines 25-39) -/

/-- Free one column's data buffer according to its type tag
(`bindings.cpp` lines 28-34).  Type 0 frees every string then the pointer
array; types 1, 2 and 3 free the flat array (`delete[]` on a
`double*` resp. `int*` — the cast does not matter to the allocator);
any other tag frees nothing. -/
def deleteSeriesData (h : Heap) (c : series) : Option Heap :=
  if c.type = 0 then
    match c.data.ptr with
    | some p => deleteCharPtrPtr h p c.data.length
    | none => none
  else if c.type = 1 ∨ c.type = 2 ∨ c.type = 3 then
    match c.data.ptr with
    | some p => h.free p
    | none => none
  else some h

/-- Release one column: its data buffer by type, then its name
(`bindings.cpp` lines 27-35). -/
def deleteColumn (h : Heap) (c : series) : Option Heap :=
  (deleteSeriesData h c).bind fun h1 => h1.free c.name

/-- Release the columns of a dataframe in order (the loop at
`bindings.cpp` lines 26-36). -/
def deleteColumns : Heap → List series → Option Heap
  | h, [] => some h
  | h, c :: rest => (deleteColumn h c).bind fun h1 => deleteColumns h1 rest

/-- Read a `dataframe` header from the heap (the dereference `df->...`
of a `dataframe*`). -/
def frameHdr (h : Heap) (a : Nat) : Option dataframe :=
  match h.mem a with
  | some (.dfHdr df) => some df
  | _ => none

/-- Read a `series[]` block from the heap. -/
def seriesArrAt (h : Heap) (a : Nat) : Option (List series) :=
  match h.mem a with
  | some (.seriesArr cols) => some cols
  | _ => none

/-- The custom deleter `deleteDataframe` (`bindings.cpp` lines 25-39):
release every column in order, then the `series[]` block, then the
`dataframe` header itself. -/
def deleteDataframe (h : Heap) (dfA : Nat) : Option Heap :=
  (frameHdr h dfA).bind fun df =>
    (seriesArrAt h df.series).bind fun cols =>
      if df.series_count ≤ cols.length then
        (deleteColumns h (cols.take df.series_count)).bind fun h1 =>
          (h1.free df.series).bind fun h2 => h2.free dfA
      else none

/-! ## `createDataframe` (`bindings.cpp` lines 41-69) -/

/-- One entry of the Python-side input of `createDataframe`: the values
of one column (a Python list, dynamically typed) together with the
parallel name, type tag and index flag for that column. -/
inductive ColumnValues where
  | strs (vs : List String)
  | dbls (vs : List Nat)
  | ints (vs : List Int)
  | bools (vs : List Bool)
  deriving DecidableEq, Repr

/-- One column specification (one index of the four parallel arguments of
`createDataframe`). -/
structure ColumnSpec where
  values : ColumnValues
  name : String
  typ : Int
  isIndex : Bool
  deriving DecidableEq, Repr

/-- Whether the given `Int` fits in a C `int` (32-bit). -/
def int32Ok (x : Int) : Bool := decide (-(2 ^ 31) ≤ x) && decide (x < 2 ^ 31)

/-- The cast `py::cast<std::vector<std::string>>` at `bindings.cpp`
line 53; `none` models the exception a mismatched Python list raises. -/
def castStrs : ColumnValues → Option (List String)
  | .strs vs => some vs
  | _ => none

/-- The cast `py::cast<std::vector<double>>` at `bindings.cpp` line 57. -/
def castDbls : ColumnValues → Option (List Nat)
  | .dbls vs => some vs
  | _ => none

/-- The cast `py::cast<std::vector<int>>` at `bindings.cpp` line 61.
Python bools are ints, so a boolean column casts to 0/1 values; an
integer outside the 32-bit range raises. -/
def castInts : ColumnValues → Option (List Int)
  | .ints vs => if vs.all int32Ok then some vs else none
  | .bools vs => some (vs.map fun b => if b then 1 else 0)
  | _ => none

/-- Build one column (loop body of `bindings.cpp` lines 45-64): `strdup`
the name, store the index flag and type tag, then dispatch on the type
tag to cast the values and copy them into a fresh buffer.  A tag outside
0-3 matches no branch: the data descriptor stays unassigned. -/
def buildColumn (h : Heap) (sp : ColumnSpec) : Option (Heap × series) :=
  let (h1, nameA) := h.alloc (.cstr sp.name)
  let idx : Int := if sp.isIndex then 1 else 0
  if sp.typ = 0 then
    (castStrs sp.values).map fun vs =>
      let (h2, pA) := copyVectorStringToCharPtrPtr h1 vs
      (h2, ⟨nameA, idx, sp.typ, ⟨some pA, vs.length⟩⟩)
  else if sp.typ = 1 then
    (castDbls sp.values).map fun vs =>
      let (h2, pA) := copyVectorDouble h1 vs
      (h2, ⟨nameA, idx, sp.typ, ⟨some pA, vs.length⟩⟩)
  else if sp.typ = 2 ∨ sp.typ = 3 then
    (castInts sp.values).map fun vs =>
      let (h2, pA) := copyVectorInt h1 vs
      (h2, ⟨nameA, idx, sp.typ, ⟨some pA, vs.length⟩⟩)
  else
    some (h1, ⟨nameA, idx, sp.typ, ⟨none, 0⟩⟩)

/-- Build all columns in order. -/
def buildColumns : Heap → List ColumnSpec → Option (Heap × List series)
  | h, [] => some (h, [])
  | h, sp :: rest =>
    (buildColumn h sp).bind fun (h1, c) =>
      (buildColumns h1 rest).map fun (h2, cs) => (h2, c :: cs)

/-- `createDataframe` (`bindings.cpp` lines 41-69): allocate the
`dataframe` header and the `series[]` block, fill one column per spec,
then store the column count and the column array pointer.  `none` models
a `py::cast` exception. -/
def createDataframe (h : Heap) (specs : List ColumnSpec) : Option (Heap × Nat) :=
  let (h0, dfA) := h.alloc (.dfHdr ⟨0, 0⟩)
  let (h1, serA) := h0.alloc (.seriesArr [])
  (buildColumns h1 specs).map fun (h2, cols) =>
    (((h2.store serA (.seriesArr cols)).store dfA (.dfHdr ⟨serA, specs.length⟩)), dfA)

/-! ## `createDataframeArray` (`bindings.cpp` lines 71-83) -/

/-- Dereference each dataframe pointer (the copies `*dataframes[i]` at
`bindings.cpp` line 78), in order. -/
def readHeaders : Heap → List Nat → Option (List dataframe)
  | _, [] => some []
  | h, a :: rest =>
    (frameHdr h a).bind fun d => (readHeaders h rest).map fun ds => d :: ds

/-- `createDataframeArray` (`bindings.cpp` lines 71-83): allocate the
`dataframe_array` header and a `dataframe[]` block, copy each input
`dataframe` header by value (shallow: column buffers are referenced, not
duplicated), and store the pointer and count. -/
def createDataframeArray (h : Heap) (dfAddrs : List Nat) : Option (Heap × Nat) :=
  let (h0, arrA) := h.alloc (.dfArrHdr ⟨0, 0⟩)
  let (h1, dfsA) := h0.alloc (.dfArr [])
  (readHeaders h1 dfAddrs).map fun dfs =>
    (((h1.store dfsA (.dfArr dfs)).store arrA (.dfArrHdr ⟨dfsA, dfAddrs.length⟩)), arrA)

/-- Read a `dataframe_array` header from the heap. -/
def arrayHdr (h : Heap) (a : Nat) : Option dataframe_array :=
  match h.mem a with
  | some (.dfArrHdr da) => some da
  | _ => none

/-- The custom deleter of `createDataframeArray` (`bindings.cpp` lines
72-75): free the `dataframe[]` block, then the header; contained column
buffers and names are deliberately left untouched. -/
def deleteDataframeArray (h : Heap) (a : Nat) : Option Heap :=
  (arrayHdr h a).bind fun da => (h.free da.dataframes).bind fun h1 => h1.free a

/-! ## The `series.data` property (`bindings.cpp` lines 497-517) -/

/-- The `py::array` built by `seriesAsNumpyArray<T>` (`bindings.cpp`
lines 90-94): a dtype tag for `T` (1 `double`, 2 `int`, 3 `bool`), the
element count and data pointer taken from the series, and — as the numpy
base object whose lifetime is bound to the array — `py::cast(series)`,
i.e. the `series` struct itself (by value; nothing else is captured). -/
structure PyArray where
  dtype : Int
  length : Nat
  ptr : Option Nat
  base : series
  deriving DecidableEq, Repr

/-- `seriesAsNumpyArray<T>` (`bindings.cpp` lines 90-94): build a view
aliasing the series data pointer, with no copy and no allocation. -/
def seriesAsNumpyArray (t : Int) (s : series) : PyArray :=
  ⟨t, s.data.length, s.data.ptr, s⟩

/-- What the `series.data` property hands to Python: either a
materialized list of strings, or a numpy view over native memory. -/
inductive ViewResult where
  | strings (vs : List String)
  | arr (v : PyArray)
  deriving DecidableEq, Repr

/-- The `series.data` property getter (`bindings.cpp` lines 504-517).
`some (.error msg)` models a thrown `PyPowsyblError`; `none` models
undefined behaviour (reading through a garbage pointer). -/
def seriesData (h : Heap) (s : series) : Option (Except String ViewResult) :=
  if s.type = 0 then
    s.data.ptr.bind fun p =>
      (toVectorString h p s.data.length).map fun vs => .ok (.strings vs)
  else if s.type = 1 then some (.ok (.arr (seriesAsNumpyArray 1 s)))
  else if s.type = 2 then some (.ok (.arr (seriesAsNumpyArray 2 s)))
  else if s.type = 3 then some (.ok (.arr (seriesAsNumpyArray 3 s)))
  else some (.error ("Series type not supported: " ++ toString s.type))

/-- Byte `k` (0-3) of a 32-bit two's-complement integer, little endian. -/
def int32ByteLE (x : Int) (k : Nat) : Nat :=
  ((x % (4294967296 : Int)).toNat >>> (8 * k)) % 256

/-- The first `len` bytes of an `int[]` block reinterpreted as one-byte
booleans (what a numpy bool view over `int` storage reads on a
little-endian machine: `sizeof(int) = 4`, `sizeof(bool) = 1`). -/
def boolBytesLE (vs : List Int) (len : Nat) : List Bool :=
  (List.range len).map fun j =>
    (match vs[j / 4]? with
     | some x => int32ByteLE x (j % 4)
     | none => 0) != 0

/-- Dereference a numpy view: what the consumer reads element-wise.  The
dtype decides the element size, so a bool view over `int` storage reads
the first `length` bytes (see `boolBytesLE`). -/
def readView (h : Heap) (v : PyArray) : Option ColumnValues :=
  match v.ptr with
  | none => none
  | some p =>
    match h.mem p with
    | some (.dblArr vs) =>
      if v.dtype = 1 then
        if v.length ≤ vs.length then some (.dbls (vs.take v.length)) else none
      else none
    | some (.intArr vs) =>
      if v.dtype = 2 then
        if v.length ≤ vs.length then some (.ints (vs.take v.length)) else none
      else if v.dtype = 3 then
        if v.length ≤ 4 * vs.length then some (.bools (boolBytesLE vs v.length)) else none
      else none
    | _ => none

/-- Read the series data property and, for numeric series, dereference
the resulting view, producing the values the Python consumer observes. -/
def consumeSeries (h : Heap) (s : series) : Option (Except String ColumnValues) :=
  match seriesData h s with
  | none => none
  | some (.error e) => some (.error e)
  | some (.ok (.strings vs)) => some (.ok (.strs vs))
  | some (.ok (.arr v)) => (readView h v).map .ok

/-- Read the columns of a dataframe header. -/
def frameCols (h : Heap) (a : Nat) : Option (List series) :=
  (frameHdr h a).bind fun df => seriesArrAt h df.series

/-- Build a dataframe and return the resulting heap, its address and its
columns. -/
def builtFrame (h : Heap) (specs : List ColumnSpec) : Option (Heap × Nat × List series) :=
  (createDataframe h specs).bind fun (h', dfA) =>
    (frameCols h' dfA).map fun cols => (h', dfA, cols)

/-- Build a single column and consume it through the `series.data`
property: the round trip of spec section 8. -/
def roundTrip (h : Heap) (sp : ColumnSpec) : Option (Except String ColumnValues) :=
  (builtFrame h [sp]).bind fun (h', _, cols) =>
    match cols with
    | [c] => consumeSeries h' c
    | _ => none

/-- Build a single column, then release the whole dataframe (used to
state that a materialized string copy is independent of the native
storage, which can be freed afterwards). -/
def freeBuiltFrame (h : Heap) (sp : ColumnSpec) : Bool :=
  match builtFrame h [sp] with
  | some (h', dfA, _) => (deleteDataframe h' dfA).isSome
  | none => false

/-! ## Well-formed frames and the addresses a frame owns -/

/-- The `char**` block addresses of a string column, if intact. -/
def strArrOf (h : Heap) (c : series) : Option (List Nat) :=
  c.data.ptr.bind fun p =>
    match h.mem p with
    | some (.ptrArr ps) => some ps
    | _ => none

/-- The addresses `deleteColumn` frees for this column, in order: for a
string column every string then the pointer array, for a numeric or
boolean column the flat array, for an unrecognized tag nothing; in every
case the name storage last. -/
def colOwnedAddrs (h : Heap) (c : series) : List Nat :=
  (if c.type = 0 then ((strArrOf h c).getD []).take c.data.length ++ c.data.ptr.toList
   else if c.type = 1 ∨ c.type = 2 ∨ c.type = 3 then c.data.ptr.toList
   else []) ++ [c.name]

/-- The owned addresses of a list of columns, in column order. -/
def flatOwned (h : Heap) : List series → List Nat
  | [] => []
  | c :: rest => colOwnedAddrs h c ++ flatOwned h rest

/-- The addresses `deleteDataframe` frees for this frame, in order:
every column's owned addresses in column order, then the `series[]`
block, then the header. -/
def ownedAddrs (h : Heap) (dfA : Nat) : List Nat :=
  ((frameHdr h dfA).map fun df =>
    flatOwned h (((seriesArrAt h df.series).getD []).take df.series_count) ++
      [df.series, dfA]).getD []

/-- A structurally intact column: a string column has an intact pointer
array whose length matches the recorded one; a numeric or boolean column
has an assigned data pointer. -/
def ColWF (h : Heap) (c : series) : Prop :=
  (c.type = 0 → (strArrOf h c).map List.length = some c.data.length) ∧
  ((c.type = 1 ∨ c.type = 2 ∨ c.type = 3) → c.data.ptr.isSome = true)

instance (h : Heap) (c : series) : Decidable (ColWF h c) := by
  unfold ColWF; infer_instance

/-- A structurally intact dataframe whose ownership discipline holds: the
header and column array are allocated, the recorded count matches, every
column is intact, and the owned addresses are pairwise distinct and all
currently allocated (single ownership, nothing freed yet). -/
def DFrameWF (h : Heap) (dfA : Nat) : Prop :=
  (frameCols h dfA).isSome = true ∧
  (frameHdr h dfA).map dataframe.series_count = (frameCols h dfA).map List.length ∧
  (∀ c ∈ (frameCols h dfA).getD [], ColWF h c) ∧
  (ownedAddrs h dfA).Nodup ∧
  ∀ a ∈ ownedAddrs h dfA, h.mem a ≠ none

instance (h : Heap) (dfA : Nat) : Decidable (DFrameWF h dfA) := by
  unfold DFrameWF; infer_instance

/-! ## `initLoadFlowParameters` (`bindings.cpp` lines 97-120) and the
`countries_to_balance` setter (lines 346-352) -/

/-- Read a `load_flow_parameters` block. -/
def lfpOf (h : Heap) (a : Nat) : Option load_flow_parameters :=
  match h.mem a with
  | some (.lfp p) => some p
  | _ => none

/-- `initLoadFlowParameters` (`bindings.cpp` lines 97-120): allocate a
fresh struct, copy every scalar field from the configuration template
verbatim, and deep-copy the `countries_to_balance` string list into
freshly allocated storage (lines 111-114).  The template itself is
`pypowsybl::createLoadFlowParameters()`, modelled from the spec as the
process-wide default configuration handed in as `config` (its list
storage lives in the heap). -/
def initLoadFlowParameters (h : Heap) (config : load_flow_parameters) :
    Option (Heap × Nat) :=
  let (h0, pA) := h.alloc (.lfp ⟨0, 0, 0, 0, 0, 0, 0, 0, 0, 0, 0, 0, 0, 0⟩)
  (toVectorString h0 config.countriesToBalance config.countriesToBalanceCount).map
    fun configCountries =>
      let (h1, np) := copyVectorStringToCharPtrPtr h0 configCountries
      (h1.store pA (.lfp
        ⟨config.voltageInitMode, config.transformerVoltageControlOn,
         config.noGeneratorReactiveLimits, config.phaseShifterRegulationOn,
         config.twtSplitShuntAdmittance, config.simulShunt,
         config.readSlackBus, config.writeSlackBus, config.distributedSlack,
         config.balanceType, config.dcUseTransformerRatioFlag,
         np, configCountries.length, config.connectedComponentMode⟩), pA)

/-- The `countries_to_balance` property setter (`bindings.cpp` lines
348-352): free the previous list storage, then install a deep copy of the
new values and the new count. -/
def setCountriesToBalance (h : Heap) (pA : Nat) (vals : List String) : Option Heap :=
  (lfpOf h pA).bind fun p =>
    (deleteCharPtrPtr h p.countriesToBalance p.countriesToBalanceCount).map fun h1 =>
      let (h2, np) := copyVectorStringToCharPtrPtr h1 vals
      h2.store pA (.lfp
        { p with countriesToBalance := np, countriesToBalanceCount := vals.length })

/-- The `countries_to_balance` property getter (`bindings.cpp` lines
346-348): materialize the list from the struct's storage. -/
def paramsCountries (h : Heap) (pA : Nat) : Option (List String) :=
  (lfpOf h pA).bind fun p =>
    toVectorString h p.countriesToBalance p.countriesToBalanceCount

/-! ## Basic lemmas about the heap operations -/

theorem alloc_next (h : Heap) (b : Block) : (h.alloc b).1.next = h.next + 1 := rfl

theorem alloc_snd (h : Heap) (b : Block) : (h.alloc b).2 = h.next := rfl

theorem alloc_log (h : Heap) (b : Block) : (h.alloc b).1.log = h.log := rfl

theorem alloc_mem_self (h : Heap) (b : Block) : (h.alloc b).1.mem h.next = some b := by
  simp [Heap.alloc]

theorem alloc_mem_ne (h : Heap) (b : Block) (x : Nat) (hx : x ≠ h.next) :
    (h.alloc b).1.mem x = h.mem x := by
  simp [Heap.alloc, hx]

theorem store_next (h : Heap) (a : Nat) (b : Block) : (h.store a b).next = h.next := rfl

theorem store_log (h : Heap) (a : Nat) (b : Block) : (h.store a b).log = h.log := rfl

theorem store_mem_self (h : Heap) (a : Nat) (b : Block) : (h.store a b).mem a = some b := by
  simp [Heap.store]

theorem store_mem_ne (h : Heap) (a : Nat) (b : Block) (x : Nat) (hx : x ≠ a) :
    (h.store a b).mem x = h.mem x := by
  simp [Heap.store, hx]

theorem free_spec (h : Heap) (a : Nat) (ha : h.mem a ≠ none) :
    ∃ h', h.free a = some h' ∧ h'.next = h.next ∧ h'.log = h.log ++ [a] ∧
      ∀ x, h'.mem x = if x = a then none else h.mem x := by
  cases hm : h.mem a with
  | none => exact absurd hm ha
  | some b =>
    refine ⟨⟨fun x => if x = a then none else h.mem x, h.next, h.log ++ [a]⟩,
      ?_, rfl, rfl, fun x => rfl⟩
    simp [Heap.free, hm]

theorem lt_next_of_mem (h : Heap) (hwf : h.WF) (a : Nat) (ha : h.mem a ≠ none) :
    a < h.next := by
  by_contra hc
  exact ha (hwf a (by omega))

/-! ## Address ranges -/

/-- The addresses `[base, base + len)` in increasing order: the shape of
a run of consecutive allocations. -/
def addrRange : Nat → Nat → List Nat
  | _, 0 => []
  | base, len + 1 => base :: addrRange (base + 1) len

theorem addrRange_length : ∀ (len base : Nat), (addrRange base len).length = len
  | 0, _ => rfl
  | len + 1, base => by simp [addrRange, addrRange_length len]

theorem mem_addrRange : ∀ (len base x : Nat),
    x ∈ addrRange base len ↔ base ≤ x ∧ x < base + len
  | 0, base, x => by simp [addrRange]
  | len + 1, base, x => by
    simp [addrRange, mem_addrRange len (base + 1) x]
    omega

theorem addrRange_nodup : ∀ (len base : Nat), (addrRange base len).Nodup
  | 0, _ => List.nodup_nil
  | len + 1, base => by
    refine List.nodup_cons.mpr ⟨fun hc => ?_, addrRange_nodup len (base + 1)⟩
    have := (mem_addrRange len (base + 1) base).mp hc
    omega

/-! ## Characterization of `allocStrings` and
`copyVectorStringToCharPtrPtr` -/

theorem allocStrings_next : ∀ (vs : List String) (h : Heap),
    (allocStrings h vs).1.next = h.next + vs.length
  | [], _ => rfl
  | _ :: rest, h => by
    simp only [allocStrings, List.length_cons, allocStrings_next rest, alloc_next]
    omega

theorem allocStrings_log : ∀ (vs : List String) (h : Heap),
    (allocStrings h vs).1.log = h.log
  | [], _ => rfl
  | _ :: rest, h => by simp only [allocStrings, allocStrings_log rest, alloc_log]

theorem allocStrings_snd : ∀ (vs : List String) (h : Heap),
    (allocStrings h vs).2 = addrRange h.next vs.length
  | [], _ => rfl
  | _ :: rest, h => by
    simp only [allocStrings, List.length_cons, addrRange, allocStrings_snd rest,
      alloc_next, alloc_snd]

theorem allocStrings_mem_lo : ∀ (vs : List String) (h : Heap) (x : Nat), x < h.next →
    (allocStrings h vs).1.mem x = h.mem x
  | [], _, _, _ => rfl
  | s :: rest, h, x, hx => by
    have h1 := allocStrings_mem_lo rest (h.alloc (.cstr s)).1 x (by rw [alloc_next]; omega)
    simp [allocStrings]
    rw [h1, alloc_mem_ne h _ x (by omega)]

theorem allocStrings_mem_hi : ∀ (vs : List String) (h : Heap) (x : Nat),
    h.next + vs.length ≤ x → (allocStrings h vs).1.mem x = h.mem x
  | [], _, _, _ => rfl
  | s :: rest, h, x, hx => by
    simp only [List.length_cons] at hx
    have h1 := allocStrings_mem_hi rest (h.alloc (.cstr s)).1 x (by rw [alloc_next]; omega)
    simp [allocStrings]
    rw [h1, alloc_mem_ne h _ x (by omega)]

theorem allocStrings_mem_at : ∀ (vs : List String) (h : Heap) (i : Nat), i < vs.length →
    (allocStrings h vs).1.mem (h.next + i) = (vs[i]?).map Block.cstr
  | [], _, _, hi => by simp at hi
  | s :: rest, h, i, hi => by
    simp only [allocStrings]
    cases i with
    | zero =>
      rw [allocStrings_mem_lo rest _ (h.next + 0) (by rw [alloc_next]; omega)]
      simp [alloc_mem_self]
    | succ j =>
      have hj : j < rest.length := by simpa using hi
      have := allocStrings_mem_at rest (h.alloc (.cstr s)).1 j hj
      rw [alloc_next] at this
      have harith : h.next + 1 + j = h.next + (j + 1) := by omega
      rw [harith] at this
      rw [this]
      simp

theorem copyVSS_snd (h : Heap) (vs : List String) :
    (copyVectorStringToCharPtrPtr h vs).2 = h.next + vs.length := by
  simp [copyVectorStringToCharPtrPtr, alloc_snd, allocStrings_next]

theorem copyVSS_next (h : Heap) (vs : List String) :
    (copyVectorStringToCharPtrPtr h vs).1.next = h.next + vs.length + 1 := by
  simp [copyVectorStringToCharPtrPtr, alloc_next, allocStrings_next]

theorem copyVSS_log (h : Heap) (vs : List String) :
    (copyVectorStringToCharPtrPtr h vs).1.log = h.log := by
  simp [copyVectorStringToCharPtrPtr, alloc_log, allocStrings_log]

theorem copyVSS_mem_ptr (h : Heap) (vs : List String) :
    (copyVectorStringToCharPtrPtr h vs).1.mem (h.next + vs.length) =
      some (.ptrArr (addrRange h.next vs.length)) := by
  simp only [copyVectorStringToCharPtrPtr]
  rw [allocStrings_snd]
  have h1 : h.next + vs.length = (allocStrings h vs).1.next := (allocStrings_next vs h).symm
  rw [h1, alloc_mem_self]

theorem copyVSS_mem_lo (h : Heap) (vs : List String) (x : Nat) (hx : x < h.next) :
    (copyVectorStringToCharPtrPtr h vs).1.mem x = h.mem x := by
  simp only [copyVectorStringToCharPtrPtr]
  rw [alloc_mem_ne _ _ x (by rw [allocStrings_next]; omega)]
  exact allocStrings_mem_lo vs h x hx

theorem copyVSS_mem_hi (h : Heap) (vs : List String) (x : Nat)
    (hx : h.next + vs.length + 1 ≤ x) :
    (copyVectorStringToCharPtrPtr h vs).1.mem x = h.mem x := by
  simp only [copyVectorStringToCharPtrPtr]
  rw [alloc_mem_ne _ _ x (by rw [allocStrings_next]; omega)]
  exact allocStrings_mem_hi vs h x (by omega)

theorem copyVSS_mem_at (h : Heap) (vs : List String) (i : Nat) (hi : i < vs.length) :
    (copyVectorStringToCharPtrPtr h vs).1.mem (h.next + i) = (vs[i]?).map Block.cstr := by
  simp only [copyVectorStringToCharPtrPtr]
  rw [alloc_mem_ne _ _ _ (by rw [allocStrings_next]; omega)]
  exact allocStrings_mem_at vs h i hi

/-! ## Reading strings back -/

theorem readCStrList_addrRange (vs : List String) : ∀ (h : Heap) (base : Nat),
    (∀ i, i < vs.length → h.mem (base + i) = (vs[i]?).map Block.cstr) →
    readCStrList h (addrRange base vs.length) = some vs := by
  induction vs with
  | nil => intro h base _; rfl
  | cons s rest ih =>
    intro h base hm
    have h0 : h.mem base = some (.cstr s) := by
      have := hm 0 (by simp)
      simpa using this
    have hrest : readCStrList h (addrRange (base + 1) rest.length) = some rest := by
      refine ih h (base + 1) fun i hi => ?_
      have := hm (i + 1) (by simpa using Nat.succ_lt_succ hi)
      have harith : base + (i + 1) = base + 1 + i := by omega
      rw [harith] at this
      simpa using this
    simp [addrRange, readCStrList, readCStr, h0, hrest]

theorem readCStrList_congr (h h' : Heap) : ∀ (ps : List Nat),
    (∀ a ∈ ps, h'.mem a = h.mem a) →
    readCStrList h' ps = readCStrList h ps := by
  intro ps
  induction ps with
  | nil => intro _; rfl
  | cons a rest ih =>
    intro hag
    have ha : h'.mem a = h.mem a := hag a (by simp)
    have hrest := ih fun x hx => hag x (by simp [hx])
    simp [readCStrList, readCStr, ha, hrest]

theorem readCStrList_mem_ne_none (h : Heap) : ∀ (ps : List Nat) (l : List String),
    readCStrList h ps = some l → ∀ a ∈ ps, h.mem a ≠ none := by
  intro ps
  induction ps with
  | nil => intro l _ a ha; simp at ha
  | cons b rest ih =>
    intro l hr a ha
    simp only [readCStrList] at hr
    cases hb : readCStr h b with
    | none => rw [hb] at hr; simp at hr
    | some s =>
      rw [hb] at hr
      simp only [Option.some_bind] at hr
      cases hrest : readCStrList h rest with
      | none => rw [hrest] at hr; simp at hr
      | some ss =>
        rcases List.mem_cons.mp ha with rfl | hmem
        · intro hnone
          simp [readCStr, hnone] at hb
        · exact ih ss hrest a hmem

theorem toVectorString_elim (h : Heap) (p n : Nat) (l : List String)
    (hr : toVectorString h p n = some l) :
    ∃ ps, h.mem p = some (.ptrArr ps) ∧ n ≤ ps.length ∧
      readCStrList h (ps.take n) = some l := by
  unfold toVectorString at hr
  split at hr
  next ps heq =>
    split at hr
    next hn => exact ⟨ps, heq, hn, hr⟩
    next => simp at hr
  next => simp at hr

theorem toVectorString_intro (h : Heap) (p n : Nat) (ps : List Nat) (l : List String)
    (hm : h.mem p = some (.ptrArr ps)) (hn : n ≤ ps.length)
    (hl : readCStrList h (ps.take n) = some l) :
    toVectorString h p n = some l := by
  unfold toVectorString
  rw [hm]
  simp only [if_pos hn]
  exact hl

theorem strAddrs_of_mem (h : Heap) (p n : Nat) (ps : List Nat)
    (hm : h.mem p = some (.ptrArr ps)) : strAddrs h p n = ps.take n := by
  simp [strAddrs, hm]

theorem toVectorString_congr (h h' : Heap) (p n : Nat) (l : List String)
    (hr : toVectorString h p n = some l)
    (hp : h'.mem p = h.mem p)
    (hs : ∀ a ∈ strAddrs h p n, h'.mem a = h.mem a) :
    toVectorString h' p n = some l := by
  obtain ⟨ps, hm, hn, hl⟩ := toVectorString_elim h p n l hr
  refine toVectorString_intro h' p n ps l (by rw [hp, hm]) hn ?_
  rw [readCStrList_congr h h' (ps.take n) fun a ha => hs a (by
    rw [strAddrs_of_mem h p n ps hm]; exact ha)]
  exact hl

theorem toVectorString_lt_next (h : Heap) (hwf : h.WF) (p n : Nat) (l : List String)
    (hr : toVectorString h p n = some l) :
    p < h.next ∧ ∀ a ∈ strAddrs h p n, a < h.next := by
  obtain ⟨ps, hm, hn, hl⟩ := toVectorString_elim h p n l hr
  refine ⟨lt_next_of_mem h hwf p (by simp [hm]), fun a ha => ?_⟩
  rw [strAddrs_of_mem h p n ps hm] at ha
  exact lt_next_of_mem h hwf a (readCStrList_mem_ne_none h (ps.take n) l hl a ha)

theorem strAddrs_copyVSS (h : Heap) (vs : List String) :
    strAddrs (copyVectorStringToCharPtrPtr h vs).1
        (copyVectorStringToCharPtrPtr h vs).2 vs.length =
      addrRange h.next vs.length := by
  rw [copyVSS_snd, strAddrs_of_mem _ _ _ _ (copyVSS_mem_ptr h vs)]
  exact List.take_of_length_le (by rw [addrRange_length])

theorem toVectorString_copyVSS (h : Heap) (vs : List String) :
    toVectorString (copyVectorStringToCharPtrPtr h vs).1
        (copyVectorStringToCharPtrPtr h vs).2 vs.length = some vs := by
  rw [copyVSS_snd]
  refine toVectorString_intro _ _ _ (addrRange h.next vs.length) vs
    (copyVSS_mem_ptr h vs) (by rw [addrRange_length]) ?_
  rw [List.take_of_length_le (by rw [addrRange_length])]
  exact readCStrList_addrRange vs _ h.next fun i hi => copyVSS_mem_at h vs i hi

/-! ## Exact-release reasoning

`FreesExactly h L h'` says the step from `h` to `h'` freed exactly the
addresses in `L` (appending them, in order, to the free log) and touched
nothing else. -/

def FreesExactly (h : Heap) (L : List Nat) (h' : Heap) : Prop :=
  h'.next = h.next ∧ h'.log = h.log ++ L ∧
    ∀ x, h'.mem x = if x ∈ L then none else h.mem x

theorem freesExactly_comp (h h1 h2 : Heap) (L1 L2 : List Nat)
    (f1 : FreesExactly h L1 h1) (f2 : FreesExactly h1 L2 h2) :
    FreesExactly h (L1 ++ L2) h2 := by
  refine ⟨by rw [f2.1, f1.1], by rw [f2.2.1, f1.2.1, List.append_assoc], fun x => ?_⟩
  rw [f2.2.2 x]
  by_cases hx2 : x ∈ L2
  · simp [hx2]
  · rw [if_neg hx2, f1.2.2 x]
    by_cases hx1 : x ∈ L1 <;> simp [hx1, hx2, List.mem_append]

theorem free_freesExactly (h : Heap) (a : Nat) (ha : h.mem a ≠ none) :
    ∃ h', h.free a = some h' ∧ FreesExactly h [a] h' := by
  obtain ⟨h', hf, h1, h2, h3⟩ := free_spec h a ha
  exact ⟨h', hf, h1, h2, fun x => by rw [h3 x]; simp [List.mem_singleton]⟩

theorem freeList_spec : ∀ (l : List Nat) (h : Heap),
    (∀ a ∈ l, h.mem a ≠ none) → l.Nodup →
    ∃ h', freeList h l = some h' ∧ FreesExactly h l h'
  | [], h, _, _ => ⟨h, rfl, rfl, by simp, fun x => by simp⟩
  | a :: rest, h, hal, hnd => by
    obtain ⟨h1, hf, hfe1⟩ := free_freesExactly h a (hal a (by simp))
    have hna : a ∉ rest := (List.nodup_cons.mp hnd).1
    have halr : ∀ x ∈ rest, h1.mem x ≠ none := fun x hx => by
      rw [hfe1.2.2 x, if_neg (by simp; rintro rfl; exact hna hx)]
      exact hal x (by simp [hx])
    obtain ⟨h', hf', hfe'⟩ := freeList_spec rest h1 halr (List.nodup_cons.mp hnd).2
    refine ⟨h', by simp [freeList, hf, hf'], ?_⟩
    have := freesExactly_comp h h1 h' [a] rest hfe1 hfe'
    simpa using this

theorem deleteCharPtrPtr_spec (h : Heap) (p n : Nat) (ps : List Nat)
    (hp : h.mem p = some (.ptrArr ps)) (hn : n ≤ ps.length)
    (hnd : (ps.take n ++ [p]).Nodup)
    (hal : ∀ a ∈ ps.take n, h.mem a ≠ none) :
    ∃ h', deleteCharPtrPtr h p n = some h' ∧
      FreesExactly h (ps.take n ++ [p]) h' := by
  obtain ⟨hnd1, _, hdisj⟩ := List.nodup_append.mp hnd
  obtain ⟨h1, hf, hfe1⟩ := freeList_spec (ps.take n) h hal hnd1
  have hpn : p ∉ ps.take n := fun hc => (hdisj hc) (by simp)
  have hp1 : h1.mem p ≠ none := by
    rw [hfe1.2.2 p, if_neg hpn, hp]; simp
  obtain ⟨h2, hf2, hfe2⟩ := free_freesExactly h1 p hp1
  refine ⟨h2, ?_, freesExactly_comp h h1 h2 _ _ hfe1 hfe2⟩
  unfold deleteCharPtrPtr
  rw [hp]
  simp [if_pos hn, hf, hf2]

/-! ## Per-case shapes of `deleteSeriesData` and `colOwnedAddrs` -/

theorem strArrOf_elim (h : Heap) (c : series) (ps : List Nat)
    (hs : strArrOf h c = some ps) :
    ∃ p, c.data.ptr = some p ∧ h.mem p = some (.ptrArr ps) := by
  unfold strArrOf at hs
  cases hp : c.data.ptr with
  | none => rw [hp] at hs; simp at hs
  | some p =>
    rw [hp] at hs
    simp only [Option.some_bind] at hs
    split at hs
    next ps' heq =>
      refine ⟨p, rfl, ?_⟩
      rw [heq]
      simp_all
    next => simp at hs

theorem deleteSeriesData_type0 (h : Heap) (c : series) (p : Nat)
    (h0 : c.type = 0) (hp : c.data.ptr = some p) :
    deleteSeriesData h c = deleteCharPtrPtr h p c.data.length := by
  simp [deleteSeriesData, h0, hp]

theorem deleteSeriesData_num (h : Heap) (c : series) (p : Nat)
    (hn : c.type = 1 ∨ c.type = 2 ∨ c.type = 3) (hp : c.data.ptr = some p) :
    deleteSeriesData h c = h.free p := by
  have h0 : ¬ c.type = 0 := by rcases hn with hn | hn | hn <;> omega
  simp [deleteSeriesData, h0, hn, hp]

theorem deleteSeriesData_other (h : Heap) (c : series)
    (h0 : ¬ c.type = 0) (hn : ¬(c.type = 1 ∨ c.type = 2 ∨ c.type = 3)) :
    deleteSeriesData h c = some h := by
  simp [deleteSeriesData, h0, hn]

theorem colOwnedAddrs_type0 (h : Heap) (c : series) (p : Nat) (ps : List Nat)
    (h0 : c.type = 0) (hp : c.data.ptr = some p)
    (hm : h.mem p = some (.ptrArr ps)) :
    colOwnedAddrs h c = (ps.take c.data.length ++ [p]) ++ [c.name] := by
  simp [colOwnedAddrs, h0, strArrOf, hp, hm]

theorem colOwnedAddrs_num (h : Heap) (c : series) (p : Nat)
    (hn : c.type = 1 ∨ c.type = 2 ∨ c.type = 3) (hp : c.data.ptr = some p) :
    colOwnedAddrs h c = [p] ++ [c.name] := by
  have h0 : ¬ c.type = 0 := by rcases hn with hn | hn | hn <;> omega
  simp [colOwnedAddrs, h0, hn, hp]

theorem colOwnedAddrs_other (h : Heap) (c : series)
    (h0 : ¬ c.type = 0) (hn : ¬(c.type = 1 ∨ c.type = 2 ∨ c.type = 3)) :
    colOwnedAddrs h c = [] ++ [c.name] := by
  simp [colOwnedAddrs, h0, hn]

theorem name_mem_colOwnedAddrs (h : Heap) (c : series) :
    c.name ∈ colOwnedAddrs h c := by
  simp [colOwnedAddrs]

/-! ## Releasing one column -/

theorem deleteColumn_spec (h : Heap) (c : series)
    (hwf : ColWF h c) (hnd : (colOwnedAddrs h c).Nodup)
    (hal : ∀ a ∈ colOwnedAddrs h c, h.mem a ≠ none) :
    ∃ h', deleteColumn h c = some h' ∧ FreesExactly h (colOwnedAddrs h c) h' := by
  by_cases h0 : c.type = 0
  · have hlen := hwf.1 h0
    cases hsa : strArrOf h c with
    | none => rw [hsa] at hlen; simp at hlen
    | some ps =>
      rw [hsa] at hlen
      have hlen' : ps.length = c.data.length := by simpa using hlen
      obtain ⟨p, hp, hm⟩ := strArrOf_elim h c ps hsa
      have hco := colOwnedAddrs_type0 h c p ps h0 hp hm
      have htake : ps.take c.data.length = ps := by
        rw [← hlen']; exact List.take_length ps
      rw [hco, htake] at hnd hal ⊢
      have hnd1 : (ps ++ [p]).Nodup := (List.nodup_append.mp hnd).1
      obtain ⟨h1, hf, hfe1⟩ := deleteCharPtrPtr_spec h p c.data.length ps hm
        (le_of_eq hlen'.symm)
        (by rw [htake]; exact hnd1)
        (by rw [htake]; intro a ha; exact hal a (by simp [ha]))
      have hnmem : c.name ∉ ps ++ [p] := by
        have hdisj := (List.nodup_append.mp hnd).2.2
        intro hc
        exact (hdisj hc) (by simp)
      have hname : h1.mem c.name ≠ none := by
        rw [hfe1.2.2 c.name, htake, if_neg hnmem]
        exact hal c.name (by simp)
      obtain ⟨h2, hf2, hfe2⟩ := free_freesExactly h1 c.name hname
      refine ⟨h2, ?_, ?_⟩
      · unfold deleteColumn
        rw [deleteSeriesData_type0 h c p h0 hp, hf]
        simpa using hf2
      · have := freesExactly_comp h h1 h2 _ _ hfe1 hfe2
        rwa [htake] at this
  · by_cases hn : c.type = 1 ∨ c.type = 2 ∨ c.type = 3
    · cases hp : c.data.ptr with
      | none =>
        have hps := hwf.2 hn
        rw [hp] at hps
        simp at hps
      | some p =>
        have hco := colOwnedAddrs_num h c p hn hp
        rw [hco] at hnd hal ⊢
        obtain ⟨h1, hf, hfe1⟩ := free_freesExactly h p (hal p (by simp))
        have hnp : c.name ≠ p := by
          intro hc
          have hdisj := (List.nodup_append.mp hnd).2.2
          exact hdisj (show p ∈ [p] by simp) (show p ∈ [c.name] by simp [hc])
        have hname : h1.mem c.name ≠ none := by
          rw [hfe1.2.2 c.name, if_neg (by simp [hnp])]
          exact hal c.name (by simp)
        obtain ⟨h2, hf2, hfe2⟩ := free_freesExactly h1 c.name hname
        refine ⟨h2, ?_, freesExactly_comp h h1 h2 _ _ hfe1 hfe2⟩
        unfold deleteColumn
        rw [deleteSeriesData_num h c p hn hp, hf]
        simpa using hf2
    · have hco := colOwnedAddrs_other h c h0 hn
      rw [hco] at hnd hal ⊢
      obtain ⟨h1, hf, hfe1⟩ := free_freesExactly h c.name (hal c.name (by simp))
      refine ⟨h1, ?_, by simpa using hfe1⟩
      unfold deleteColumn
      rw [deleteSeriesData_other h c h0 hn]
      simpa using hf

/-! ## Frame congruence for columns -/

theorem strArrOf_congr (h h' : Heap) (c : series)
    (hag : ∀ p, c.data.ptr = some p → h'.mem p = h.mem p) :
    strArrOf h' c = strArrOf h c := by
  unfold strArrOf
  cases hp : c.data.ptr with
  | none => rfl
  | some p => simp only [Option.some_bind, hag p hp]

theorem colOwnedAddrs_congr (h h' : Heap) (c : series)
    (hag : c.type = 0 → ∀ p, c.data.ptr = some p → h'.mem p = h.mem p) :
    colOwnedAddrs h' c = colOwnedAddrs h c := by
  unfold colOwnedAddrs
  by_cases h0 : c.type = 0
  · rw [strArrOf_congr h h' c (hag h0)]
  · simp [h0]

theorem ColWF_congr (h h' : Heap) (c : series)
    (hag : c.type = 0 → ∀ p, c.data.ptr = some p → h'.mem p = h.mem p)
    (hwf : ColWF h c) : ColWF h' c := by
  refine ⟨fun h0 => ?_, hwf.2⟩
  rw [strArrOf_congr h h' c (hag h0)]
  exact hwf.1 h0

theorem ptr_mem_colOwnedAddrs_type0 (h : Heap) (c : series) (p : Nat)
    (h0 : c.type = 0) (hp : c.data.ptr = some p) :
    p ∈ colOwnedAddrs h c := by
  simp [colOwnedAddrs, h0, hp]

theorem mem_flatOwned_of_mem (h : Heap) (a : Nat) :
    ∀ (cols : List series) (c : series), c ∈ cols → a ∈ colOwnedAddrs h c →
      a ∈ flatOwned h cols := by
  intro cols
  induction cols with
  | nil => intro c hc; simp at hc
  | cons d rest ih =>
    intro c hc ha
    rcases List.mem_cons.mp hc with rfl | hc'
    · simp [flatOwned, List.mem_append]; exact Or.inl ha
    · simp [flatOwned, List.mem_append]; exact Or.inr (ih c hc' ha)

theorem flatOwned_congr (h h' : Heap) :
    ∀ (cols : List series), (∀ c ∈ cols, colOwnedAddrs h' c = colOwnedAddrs h c) →
      flatOwned h' cols = flatOwned h cols := by
  intro cols
  induction cols with
  | nil => intro _; rfl
  | cons c rest ih =>
    intro hag
    simp only [flatOwned]
    rw [hag c (by simp), ih fun d hd => hag d (by simp [hd])]

/-! ## Releasing all columns of a frame -/

theorem deleteColumns_spec : ∀ (cols : List series) (h : Heap),
    (∀ c ∈ cols, ColWF h c) → (flatOwned h cols).Nodup →
    (∀ a ∈ flatOwned h cols, h.mem a ≠ none) →
    ∃ h', deleteColumns h cols = some h' ∧ FreesExactly h (flatOwned h cols) h'
  | [], h, _, _, _ => ⟨h, rfl, rfl, by simp [flatOwned], fun x => by simp [flatOwned]⟩
  | c :: rest, h, hwf, hnd, hal => by
    simp only [flatOwned] at hnd hal ⊢
    obtain ⟨hndc, hndr, hdisj⟩ := List.nodup_append.mp hnd
    obtain ⟨h1, hf, hfe1⟩ := deleteColumn_spec h c (hwf c (by simp)) hndc
      fun a ha => hal a (by simp [ha])
    -- everything a later column owns is untouched by releasing `c`
    have huntouched : ∀ a, a ∈ flatOwned h rest → h1.mem a = h.mem a := by
      intro a ha
      rw [hfe1.2.2 a, if_neg (fun hc => (hdisj hc) ha)]
    have hag : ∀ d ∈ rest, d.type = 0 → ∀ p, d.data.ptr = some p →
        h1.mem p = h.mem p := by
      intro d hd h0 p hp
      exact huntouched p (mem_flatOwned_of_mem h p rest d hd
        (ptr_mem_colOwnedAddrs_type0 h d p h0 hp))
    have hcoeq : ∀ d ∈ rest, colOwnedAddrs h1 d = colOwnedAddrs h d :=
      fun d hd => colOwnedAddrs_congr h h1 d fun h0 p hp => hag d hd h0 p hp
    have hfoeq : flatOwned h1 rest = flatOwned h rest := flatOwned_congr h h1 rest hcoeq
    obtain ⟨h2, hf2, hfe2⟩ := deleteColumns_spec rest h1
      (fun d hd => ColWF_congr h h1 d (fun h0 p hp => hag d hd h0 p hp) (hwf d (by simp [hd])))
      (by rw [hfoeq]; exact hndr)
      (by
        rw [hfoeq]
        intro a ha
        rw [huntouched a ha]
        exact hal a (by simp [ha]))
    rw [hfoeq] at hfe2
    exact ⟨h2, by simp [deleteColumns, hf, hf2], freesExactly_comp h h1 h2 _ _ hfe1 hfe2⟩

/-! ## Releasing a whole frame -/

theorem frameHdr_elim (h : Heap) (a : Nat) (df : dataframe)
    (hf : frameHdr h a = some df) : h.mem a = some (.dfHdr df) := by
  unfold frameHdr at hf
  split at hf
  next df' heq => simp_all
  next => simp at hf

theorem seriesArrAt_elim (h : Heap) (a : Nat) (cols : List series)
    (hs : seriesArrAt h a = some cols) : h.mem a = some (.seriesArr cols) := by
  unfold seriesArrAt at hs
  split at hs
  next cols' heq => simp_all
  next => simp at hs

theorem seriesArrAt_intro (h : Heap) (a : Nat) (cols : List series)
    (hm : h.mem a = some (.seriesArr cols)) : seriesArrAt h a = some cols := by
  simp [seriesArrAt, hm]

theorem frameCols_elim (h : Heap) (a : Nat) (cols : List series)
    (hc : frameCols h a = some cols) :
    ∃ df, frameHdr h a = some df ∧ seriesArrAt h df.series = some cols := by
  unfold frameCols at hc
  cases hh : frameHdr h a with
  | none => rw [hh] at hc; simp at hc
  | some df =>
    rw [hh] at hc
    simp only [Option.some_bind] at hc
    exact ⟨df, rfl, hc⟩

theorem ownedAddrs_eq (h : Heap) (dfA : Nat) (df : dataframe) (cols : List series)
    (hh : frameHdr h dfA = some df)
    (hs : seriesArrAt h df.series = some cols)
    (hcount : df.series_count = cols.length) :
    ownedAddrs h dfA = flatOwned h cols ++ [df.series, dfA] := by
  unfold ownedAddrs
  rw [hh]
  simp only [Option.map_some', Option.getD_some]
  rw [hs, hcount]
  simp [List.take_length]

theorem deleteDataframe_spec (h : Heap) (dfA : Nat) (hwf : DFrameWF h dfA) :
    ∃ h', deleteDataframe h dfA = some h' ∧
      FreesExactly h (ownedAddrs h dfA) h' := by
  obtain ⟨hsome, hcnt, hcolwf, hnd, hal⟩ := hwf
  cases hcols : frameCols h dfA with
  | none => rw [hcols] at hsome; simp at hsome
  | some cols =>
    obtain ⟨df, hh, hs⟩ := frameCols_elim h dfA cols hcols
    have hcount : df.series_count = cols.length := by
      rw [hh, hcols] at hcnt
      simpa using hcnt
    have howned := ownedAddrs_eq h dfA df cols hh hs hcount
    rw [howned] at hnd hal
    obtain ⟨hndf, hndt, hdisj⟩ := List.nodup_append.mp hnd
    obtain ⟨h1, hf1, hfe1⟩ := deleteColumns_spec cols h
      (fun c hc => by
        apply hcolwf
        rw [hcols]
        simpa using hc)
      hndf
      (fun a ha => hal a (by simp [ha]))
    have hser1 : h1.mem df.series ≠ none := by
      rw [hfe1.2.2 df.series, if_neg (fun hc => (hdisj hc) (by simp)),
        seriesArrAt_elim h df.series cols hs]
      simp
    obtain ⟨h2, hf2, hfe2⟩ := free_freesExactly h1 df.series hser1
    have hdfne : dfA ≠ df.series := by
      have := List.nodup_cons.mp hndt
      intro hc
      exact this.1 (by simp [hc])
    have hdf2 : h2.mem dfA ≠ none := by
      rw [hfe2.2.2 dfA, if_neg (by simp [hdfne])]
      rw [hfe1.2.2 dfA, if_neg (fun hc => (hdisj hc) (by simp))]
      rw [frameHdr_elim h dfA df hh]
      simp
    obtain ⟨h3, hf3, hfe3⟩ := free_freesExactly h2 dfA hdf2
    refine ⟨h3, ?_, ?_⟩
    · unfold deleteDataframe
      rw [hh]
      simp only [Option.some_bind]
      rw [hs]
      simp only [Option.some_bind]
      rw [if_pos (le_of_eq hcount), hcount, List.take_length]
      simp [hf1, hf2, hf3]
    · rw [howned]
      have hc1 := freesExactly_comp h h1 h2 _ _ hfe1 hfe2
      have hc2 := freesExactly_comp h h2 h3 _ _ hc1 hfe3
      have : (flatOwned h cols ++ [df.series]) ++ [dfA] =
          flatOwned h cols ++ [df.series, dfA] := by simp
      rwa [this] at hc2

/-! ## Characterizing `createDataframe` on a single column -/

theorem createDataframe_single_eq (h : Heap) (sp : ColumnSpec) :
    createDataframe h [sp] =
      (buildColumn ((h.alloc (.dfHdr ⟨0, 0⟩)).1.alloc (.seriesArr [])).1 sp).map
        fun pr => ((pr.1.store (h.next + 1) (.seriesArr [pr.2])).store h.next
          (.dfHdr ⟨h.next + 1, 1⟩), h.next) := by
  unfold createDataframe buildColumns
  cases hb : buildColumn ((h.alloc (.dfHdr ⟨0, 0⟩)).1.alloc (.seriesArr [])).1 sp with
  | none => simp [hb]
  | some pr => simp [hb, buildColumns, alloc_snd, alloc_next]

theorem buildColumn_strs (h : Heap) (vs : List String) (nm : String) (idx : Bool) :
    buildColumn h ⟨.strs vs, nm, 0, idx⟩ =
      some ((copyVectorStringToCharPtrPtr (h.alloc (.cstr nm)).1 vs).1,
        ⟨h.next, if idx then 1 else 0, 0, ⟨some (h.next + 1 + vs.length), vs.length⟩⟩) := by
  simp [buildColumn, castStrs, copyVSS_snd, alloc_next, alloc_snd]

theorem buildColumn_dbls (h : Heap) (vs : List Nat) (nm : String) (idx : Bool) :
    buildColumn h ⟨.dbls vs, nm, 1, idx⟩ =
      some (((h.alloc (.cstr nm)).1.alloc (.dblArr vs)).1,
        ⟨h.next, if idx then 1 else 0, 1, ⟨some (h.next + 1), vs.length⟩⟩) := by
  simp [buildColumn, castDbls, copyVectorDouble, alloc_next, alloc_snd]

theorem buildColumn_ints (h : Heap) (vs : List Int) (nm : String) (idx : Bool)
    (hok : vs.all int32Ok = true) :
    buildColumn h ⟨.ints vs, nm, 2, idx⟩ =
      some (((h.alloc (.cstr nm)).1.alloc (.intArr vs)).1,
        ⟨h.next, if idx then 1 else 0, 2, ⟨some (h.next + 1), vs.length⟩⟩) := by
  simp [buildColumn, castInts, copyVectorInt, alloc_next, alloc_snd, hok]

theorem buildColumn_bools (h : Heap) (vs : List Bool) (nm : String) (idx : Bool) :
    buildColumn h ⟨.bools vs, nm, 3, idx⟩ =
      some (((h.alloc (.cstr nm)).1.alloc
          (.intArr (vs.map fun b => if b then 1 else 0))).1,
        ⟨h.next, if idx then 1 else 0, 3, ⟨some (h.next + 1), vs.length⟩⟩) := by
  simp [buildColumn, castInts, copyVectorInt, alloc_next, alloc_snd]

theorem buildColumn_other (h : Heap) (v : ColumnValues) (nm : String) (idx : Bool)
    (t : Int) (ht : ¬(t = 0 ∨ t = 1 ∨ t = 2 ∨ t = 3)) :
    buildColumn h ⟨v, nm, t, idx⟩ =
      some ((h.alloc (.cstr nm)).1,
        ⟨h.next, if idx then 1 else 0, t, ⟨none, 0⟩⟩) := by
  push_neg at ht
  obtain ⟨h0, h1, h2, h3⟩ := ht
  simp [buildColumn, h0, h1, h2, h3, alloc_snd]


/-! ## Round trips of a built single-column dataframe -/

theorem roundTrip_dbls (h : Heap) (vs : List Nat) (nm : String) (idx : Bool) :
    roundTrip h ⟨.dbls vs, nm, 1, idx⟩ = some (.ok (.dbls vs)) := by
  unfold roundTrip builtFrame
  rw [createDataframe_single_eq, buildColumn_dbls]
  simp [frameCols, frameHdr, seriesArrAt, consumeSeries, seriesData, seriesAsNumpyArray,
    readView, Heap.store, Heap.alloc, alloc_next]
  rw [if_neg (show ¬ h.next + 1 + 1 + 1 = h.next by omega),
    if_neg (show ¬ h.next + 1 + 1 = h.next by omega)]
  simp [List.take_length]

theorem roundTrip_ints (h : Heap) (vs : List Int) (nm : String) (idx : Bool)
    (hok : vs.all int32Ok = true) :
    roundTrip h ⟨.ints vs, nm, 2, idx⟩ = some (.ok (.ints vs)) := by
  unfold roundTrip builtFrame
  rw [createDataframe_single_eq, buildColumn_ints _ vs nm idx hok]
  simp [frameCols, frameHdr, seriesArrAt, consumeSeries, seriesData, seriesAsNumpyArray,
    readView, Heap.store, Heap.alloc, alloc_next]
  rw [if_neg (show ¬ h.next + 1 + 1 + 1 = h.next by omega),
    if_neg (show ¬ h.next + 1 + 1 = h.next by omega)]
  simp [List.take_length]

theorem roundTrip_bools (h : Heap) (vs : List Bool) (nm : String) (idx : Bool) :
    roundTrip h ⟨.bools vs, nm, 3, idx⟩ =
      some (.ok (.bools (boolBytesLE (vs.map fun b => if b then 1 else 0) vs.length))) := by
  unfold roundTrip builtFrame
  rw [createDataframe_single_eq, buildColumn_bools]
  simp [frameCols, frameHdr, seriesArrAt, consumeSeries, seriesData, seriesAsNumpyArray,
    readView, Heap.store, Heap.alloc, alloc_next]
  rw [if_neg (show ¬ h.next + 1 + 1 + 1 = h.next by omega),
    if_neg (show ¬ h.next + 1 + 1 = h.next by omega)]
  simp
  omega

theorem toVectorString_after_stores (hb : Heap) (vs : List String) (a1 a2 : Nat)
    (b1 b2 : Block) (ha1 : a1 < hb.next) (ha2 : a2 < hb.next) :
    toVectorString (((copyVectorStringToCharPtrPtr hb vs).1.store a1 b1).store a2 b2)
      (hb.next + vs.length) vs.length = some vs := by
  have hbase := toVectorString_copyVSS hb vs
  rw [copyVSS_snd] at hbase
  apply toVectorString_congr (copyVectorStringToCharPtrPtr hb vs).1 _ _ _ _ hbase
  · rw [store_mem_ne _ _ _ _ (by omega), store_mem_ne _ _ _ _ (by omega)]
  · intro a ha
    rw [← copyVSS_snd hb vs] at ha
    rw [strAddrs_copyVSS] at ha
    have := (mem_addrRange _ _ _).mp ha
    rw [store_mem_ne _ _ _ _ (by omega), store_mem_ne _ _ _ _ (by omega)]

theorem frameCols_after_single (hc : Heap) (n : Nat) (c : series) :
    frameCols ((hc.store (n + 1) (.seriesArr [c])).store n (.dfHdr ⟨n + 1, 1⟩)) n =
      some [c] := by
  unfold frameCols frameHdr seriesArrAt
  rw [store_mem_self]
  simp only [Option.some_bind]
  rw [store_mem_ne _ _ _ _ (by omega), store_mem_self]

theorem roundTrip_strs (h : Heap) (vs : List String) (nm : String) (idx : Bool) :
    roundTrip h ⟨.strs vs, nm, 0, idx⟩ = some (.ok (.strs vs)) := by
  unfold roundTrip builtFrame
  rw [createDataframe_single_eq, buildColumn_strs]
  have hv := toVectorString_after_stores
    (((h.alloc (.dfHdr ⟨0, 0⟩)).1.alloc (.seriesArr [])).1.alloc (.cstr nm)).1 vs
    (h.next + 1) h.next
    (.seriesArr [⟨h.next + 1 + 1, if idx then 1 else 0, 0,
      ⟨some (h.next + 1 + 1 + 1 + vs.length), vs.length⟩⟩])
    (.dfHdr ⟨h.next + 1, 1⟩)
    (by simp only [alloc_next]; omega) (by simp only [alloc_next]; omega)
  simp only [alloc_next] at hv ⊢
  simp only [Option.map_some', Option.some_bind]
  rw [frameCols_after_single]
  simp only [Option.map_some', Option.some_bind]
  simp [consumeSeries, seriesData, hv]

theorem freeBuiltFrame_strs (h : Heap) (vs : List String) (nm : String) (idx : Bool) :
    freeBuiltFrame h ⟨.strs vs, nm, 0, idx⟩ = true := by
  unfold freeBuiltFrame builtFrame
  rw [createDataframe_single_eq, buildColumn_strs]
  simp only [alloc_next, Option.map_some', Option.some_bind]
  rw [frameCols_after_single]
  simp only [Option.map_some']
  -- name the pieces
  set pre3 := (((h.alloc (.dfHdr ⟨0, 0⟩)).1.alloc (.seriesArr [])).1.alloc (.cstr nm)).1
    with hpre3
  set C := (copyVectorStringToCharPtrPtr pre3 vs).1 with hC
  set c : series := ⟨h.next + 1 + 1, if idx then 1 else 0, 0,
    ⟨some (h.next + 1 + 1 + 1 + vs.length), vs.length⟩⟩ with hc
  set H := (C.store (h.next + 1) (.seriesArr [c])).store h.next
    (.dfHdr ⟨h.next + 1, 1⟩) with hH
  have e3 : pre3.next = h.next + 1 + 1 + 1 := by simp [hpre3, alloc_next]
  -- memory facts about H
  have hmemN : H.mem h.next = some (.dfHdr ⟨h.next + 1, 1⟩) := store_mem_self _ _ _
  have hmemS : H.mem (h.next + 1) = some (.seriesArr [c]) := by
    rw [hH, store_mem_ne _ _ _ _ (by omega), store_mem_self]
  have hmemName : H.mem (h.next + 1 + 1) = some (.cstr nm) := by
    rw [hH, store_mem_ne _ _ _ _ (by omega), store_mem_ne _ _ _ _ (by omega), hC,
      copyVSS_mem_lo _ _ _ (by omega)]
    rw [hpre3]
    have : h.next + 1 + 1 = ((h.alloc (.dfHdr ⟨0, 0⟩)).1.alloc (.seriesArr [])).1.next := by
      simp [alloc_next]
    rw [this, alloc_mem_self]
  have hmemPtr : H.mem (h.next + 1 + 1 + 1 + vs.length) =
      some (.ptrArr (addrRange (h.next + 1 + 1 + 1) vs.length)) := by
    rw [hH, store_mem_ne _ _ _ _ (by omega), store_mem_ne _ _ _ _ (by omega), hC]
    have := copyVSS_mem_ptr pre3 vs
    rw [e3] at this
    exact this
  have hmemStr : ∀ i, i < vs.length →
      H.mem (h.next + 1 + 1 + 1 + i) = (vs[i]?).map Block.cstr := by
    intro i hi
    rw [hH, store_mem_ne _ _ _ _ (by omega), store_mem_ne _ _ _ _ (by omega), hC]
    have := copyVSS_mem_at pre3 vs i hi
    rw [e3] at this
    exact this
  -- frame structure facts
  have hfh : frameHdr H h.next = some ⟨h.next + 1, 1⟩ := by
    unfold frameHdr; rw [hmemN]
  have hsa : seriesArrAt H (h.next + 1) = some [c] := by
    unfold seriesArrAt; rw [hmemS]
  have hstr : strArrOf H c = some (addrRange (h.next + 1 + 1 + 1) vs.length) := by
    unfold strArrOf
    rw [hc]
    simp only [Option.some_bind]
    rw [hmemPtr]
  have hcolwf : ColWF H c := by
    refine ⟨fun _ => ?_, fun habs => by rw [hc] at habs; simp at habs⟩
    rw [hstr, hc]
    simp [addrRange_length]
  have hco : colOwnedAddrs H c =
      (addrRange (h.next + 1 + 1 + 1) vs.length ++ [h.next + 1 + 1 + 1 + vs.length]) ++
        [h.next + 1 + 1] := by
    have := colOwnedAddrs_type0 H c (h.next + 1 + 1 + 1 + vs.length)
      (addrRange (h.next + 1 + 1 + 1) vs.length) (by rw [hc]) (by rw [hc]) hmemPtr
    rw [this, hc]
    simp [List.take_of_length_le (le_of_eq (addrRange_length _ _))]
  have howned : ownedAddrs H h.next =
      ((addrRange (h.next + 1 + 1 + 1) vs.length ++ [h.next + 1 + 1 + 1 + vs.length]) ++
        [h.next + 1 + 1]) ++ [h.next + 1, h.next] := by
    have := ownedAddrs_eq H h.next ⟨h.next + 1, 1⟩ [c] hfh hsa (by simp)
    rw [this]
    simp [flatOwned, hco]
  have hwf : DFrameWF H h.next := by
    refine ⟨?_, ?_, ?_, ?_, ?_⟩
    · unfold frameCols
      rw [hfh]
      simp only [Option.some_bind]
      rw [hsa]
      rfl
    · unfold frameCols
      rw [hfh]
      simp only [Option.some_bind]
      rw [hsa]
      rfl
    · unfold frameCols
      rw [hfh]
      simp only [Option.some_bind]
      rw [hsa]
      intro d hd
      simp at hd
      rw [hd]
      exact hcolwf
    · rw [howned]
      refine List.Nodup.append (List.Nodup.append (List.Nodup.append
        (addrRange_nodup _ _) (by simp) ?_) (by simp) ?_) ?_ ?_
      · intro a ha hb
        rw [mem_addrRange] at ha
        simp at hb
        omega
      · intro a ha hb
        simp at hb
        rcases List.mem_append.mp ha with ha | ha
        · rw [mem_addrRange] at ha; omega
        · simp at ha; omega
      · simp
      · intro a ha hb
        simp at hb
        rcases List.mem_append.mp ha with ha | ha
        · rcases List.mem_append.mp ha with ha | ha
          · rw [mem_addrRange] at ha
            rcases hb with rfl | rfl <;> omega
          · simp at ha
            rcases hb with rfl | rfl <;> omega
        · simp at ha
          rcases hb with rfl | rfl <;> omega
    · rw [howned]
      intro a ha
      rcases List.mem_append.mp ha with ha | ha
      · rcases List.mem_append.mp ha with ha | ha
        · rcases List.mem_append.mp ha with ha | ha
          · rw [mem_addrRange] at ha
            have hi : a = h.next + 1 + 1 + 1 + (a - (h.next + 1 + 1 + 1)) := by omega
            rw [hi, hmemStr (a - (h.next + 1 + 1 + 1)) (by omega)]
            rw [List.getElem?_eq_getElem (by omega)]
            simp
          · simp at ha
            rw [ha, hmemPtr]
            simp
        · simp at ha
          rw [ha, hmemName]
          simp
      · simp at ha
        rcases ha with rfl | rfl
        · rw [hmemS]; simp
        · rw [hmemN]; simp
  obtain ⟨h', hdel, _⟩ := deleteDataframe_spec H h.next hwf
  rw [hdel]
  rfl

/-! ## Creating a column with an unrecognized type tag, and name handling -/

theorem createDataframe_unknown_spec (h : Heap) (v : ColumnValues) (nm : String)
    (idx : Bool) (t : Int) (ht : ¬(t = 0 ∨ t = 1 ∨ t = 2 ∨ t = 3)) :
    ∃ H, createDataframe h [⟨v, nm, t, idx⟩] = some (H, h.next) ∧
      H.next = h.next + 3 ∧
      frameCols H h.next =
        some [⟨h.next + 2, if idx then 1 else 0, t, ⟨none, 0⟩⟩] ∧
      H.mem (h.next + 2) = some (.cstr nm) ∧
      (∀ x, x < h.next → H.mem x = h.mem x) := by
  have heq := createDataframe_single_eq h ⟨v, nm, t, idx⟩
  rw [buildColumn_other _ v nm idx t ht] at heq
  simp only [Option.map_some', alloc_next] at heq
  refine ⟨_, heq, ?_, ?_, ?_, ?_⟩
  · simp only [store_next, alloc_next]
  · rw [frameCols_after_single]
  · rw [store_mem_ne _ _ _ _ (by omega), store_mem_ne _ _ _ _ (by omega)]
    have e2 : h.next + 2 = ((h.alloc (.dfHdr ⟨0, 0⟩)).1.alloc (.seriesArr [])).1.next := by
      simp [alloc_next]
    rw [e2, alloc_mem_self]
  · intro x hx
    rw [store_mem_ne _ _ _ _ (by omega), store_mem_ne _ _ _ _ (by omega),
      alloc_mem_ne _ _ _ (by simp only [alloc_next]; omega),
      alloc_mem_ne _ _ _ (by simp only [alloc_next]; omega),
      alloc_mem_ne _ _ _ (by omega)]

theorem createDataframe_name_spec (h : Heap) (nm : String) (idx : Bool)
    (vs : List Int) (hok : vs.all int32Ok = true) :
    ∃ H, createDataframe h [⟨.ints vs, nm, 2, idx⟩] = some (H, h.next) ∧
      H.mem (h.next + 2) = some (.cstr nm) := by
  have heq := createDataframe_single_eq h ⟨.ints vs, nm, 2, idx⟩
  rw [buildColumn_ints _ vs nm idx hok] at heq
  simp only [Option.map_some', alloc_next] at heq
  refine ⟨_, heq, ?_⟩
  rw [store_mem_ne _ _ _ _ (by omega), store_mem_ne _ _ _ _ (by omega),
    alloc_mem_ne _ _ _ (by simp only [alloc_next]; omega)]
  have e2 : h.next + 2 = ((h.alloc (.dfHdr ⟨0, 0⟩)).1.alloc (.seriesArr [])).1.next := by
    simp [alloc_next]
  rw [e2, alloc_mem_self]

/-! ## Releasing a dataframe array -/

theorem deleteDataframeArray_stores (X : Heap) (n k : Nat) (dfs : List dataframe) :
    ∃ H', deleteDataframeArray
        ((X.store (n + 1) (.dfArr dfs)).store n (.dfArrHdr ⟨n + 1, k⟩)) n = some H' ∧
      FreesExactly ((X.store (n + 1) (.dfArr dfs)).store n (.dfArrHdr ⟨n + 1, k⟩))
        [n + 1, n] H' := by
  set H := (X.store (n + 1) (.dfArr dfs)).store n (.dfArrHdr ⟨n + 1, k⟩) with hH
  have hhdr : arrayHdr H n = some (⟨n + 1, k⟩ : dataframe_array) := by
    unfold arrayHdr
    rw [hH, store_mem_self]
  have hm1 : H.mem (n + 1) ≠ none := by
    rw [hH, store_mem_ne _ _ _ _ (by omega), store_mem_self]
    simp
  obtain ⟨h1, hf1, hfe1⟩ := free_freesExactly H (n + 1) hm1
  have hm0 : h1.mem n ≠ none := by
    rw [hfe1.2.2 n, if_neg (by simp), hH, store_mem_self]
    simp
  obtain ⟨h2, hf2, hfe2⟩ := free_freesExactly h1 n hm0
  refine ⟨h2, ?_, ?_⟩
  · unfold deleteDataframeArray
    rw [hhdr]
    simp only [Option.some_bind]
    rw [hf1]
    simpa using hf2
  · have := freesExactly_comp H h1 h2 _ _ hfe1 hfe2
    simpa using this

/-! ## The empty dataframe array -/

theorem createDataframeArray_empty_spec (h : Heap) :
    ∃ H, createDataframeArray h [] = some (H, h.next) ∧
      arrayHdr H h.next = some ⟨h.next + 1, 0⟩ ∧
      (deleteDataframeArray H h.next).isSome = true := by
  have heq : createDataframeArray h [] =
      some ((((h.alloc (.dfArrHdr ⟨0, 0⟩)).1.alloc (.dfArr [])).1.store (h.next + 1)
          (.dfArr [])).store h.next (.dfArrHdr ⟨h.next + 1, 0⟩), h.next) := by
    unfold createDataframeArray readHeaders
    simp [alloc_next, alloc_snd]
  refine ⟨_, heq, ?_, ?_⟩
  · unfold arrayHdr
    rw [store_mem_self]
  · obtain ⟨H', hdel, _⟩ := deleteDataframeArray_stores
      ((h.alloc (.dfArrHdr ⟨0, 0⟩)).1.alloc (.dfArr [])).1 h.next 0 []
    rw [hdel]
    rfl

/-! ## `createDataframeArray` on arbitrary frames -/

theorem frameHdr_congr (h h' : Heap) (a : Nat) (hmem : h'.mem a = h.mem a) :
    frameHdr h' a = frameHdr h a := by
  unfold frameHdr
  rw [hmem]

theorem frameHdr_ne_none (h : Heap) (a : Nat) (hf : (frameHdr h a).isSome = true) :
    h.mem a ≠ none := by
  unfold frameHdr at hf
  intro hm
  rw [hm] at hf
  simp at hf

theorem readHeaders_congr (h h' : Heap) : ∀ (l : List Nat),
    (∀ a ∈ l, frameHdr h' a = frameHdr h a) → readHeaders h' l = readHeaders h l
  | [], _ => rfl
  | a :: rest, hag => by
    simp only [readHeaders]
    rw [hag a (by simp), readHeaders_congr h h' rest fun x hx => hag x (by simp [hx])]

theorem readHeaders_isSome (h : Heap) : ∀ (l : List Nat),
    (∀ a ∈ l, (frameHdr h a).isSome = true) → ∃ ds, readHeaders h l = some ds
  | [], _ => ⟨[], rfl⟩
  | a :: rest, hl => by
    obtain ⟨ds, hds⟩ := readHeaders_isSome h rest fun x hx => hl x (by simp [hx])
    cases hf : frameHdr h a with
    | none =>
      have := hl a (by simp)
      rw [hf] at this
      simp at this
    | some d => exact ⟨d :: ds, by simp [readHeaders, hf, hds]⟩

theorem createDataframeArray_spec (h : Heap) (dfAddrs : List Nat)
    (hwf : h.WF) (hl : ∀ a ∈ dfAddrs, (frameHdr h a).isSome = true) :
    ∃ H dfs, readHeaders h dfAddrs = some dfs ∧
      createDataframeArray h dfAddrs = some (H, h.next) ∧
      H.next = h.next + 2 ∧ H.log = h.log ∧
      arrayHdr H h.next = some ⟨h.next + 1, dfAddrs.length⟩ ∧
      H.mem (h.next + 1) = some (.dfArr dfs) ∧
      (∀ x, x ≠ h.next → x ≠ h.next + 1 → H.mem x = h.mem x) ∧
      ∃ H', deleteDataframeArray H h.next = some H' ∧
        H'.log = h.log ++ [h.next + 1, h.next] ∧
        ∀ x, H'.mem x = h.mem x := by
  have haddr : ∀ a ∈ dfAddrs, a < h.next :=
    fun a ha => lt_next_of_mem h hwf a (frameHdr_ne_none h a (hl a ha))
  obtain ⟨dfs, hds⟩ := readHeaders_isSome h dfAddrs hl
  have hcongr : readHeaders ((h.alloc (.dfArrHdr ⟨0, 0⟩)).1.alloc (.dfArr [])).1 dfAddrs =
      some dfs := by
    rw [readHeaders_congr h _ dfAddrs fun a ha => frameHdr_congr h _ a (by
      rw [alloc_mem_ne _ _ _ (by simp only [alloc_next]; have := haddr a ha; omega),
        alloc_mem_ne _ _ _ (by have := haddr a ha; omega)])]
    exact hds
  have heq : createDataframeArray h dfAddrs =
      some ((((h.alloc (.dfArrHdr ⟨0, 0⟩)).1.alloc (.dfArr [])).1.store (h.next + 1)
          (.dfArr dfs)).store h.next (.dfArrHdr ⟨h.next + 1, dfAddrs.length⟩), h.next) := by
    unfold createDataframeArray
    simp [hcongr, alloc_next, alloc_snd]
  have huntouched : ∀ x, x ≠ h.next → x ≠ h.next + 1 →
      ((((h.alloc (.dfArrHdr ⟨0, 0⟩)).1.alloc (.dfArr [])).1.store (h.next + 1)
          (.dfArr dfs)).store h.next (.dfArrHdr ⟨h.next + 1, dfAddrs.length⟩)).mem x =
        h.mem x := by
    intro x hx0 hx1
    rw [store_mem_ne _ _ _ _ hx0, store_mem_ne _ _ _ _ hx1,
      alloc_mem_ne _ _ _ (by simp only [alloc_next]; omega),
      alloc_mem_ne _ _ _ (by omega)]
  refine ⟨_, dfs, hds, heq, ?_, ?_, ?_, ?_, huntouched, ?_⟩
  · simp only [store_next, alloc_next]
  · simp only [store_log, alloc_log]
  · unfold arrayHdr
    rw [store_mem_self]
  · rw [store_mem_ne _ _ _ _ (by omega), store_mem_self]
  · obtain ⟨H', hdel, hfe⟩ := deleteDataframeArray_stores
      ((h.alloc (.dfArrHdr ⟨0, 0⟩)).1.alloc (.dfArr [])).1 h.next dfAddrs.length dfs
    refine ⟨H', hdel, ?_, ?_⟩
    · rw [hfe.2.1]
      simp only [store_log, alloc_log]
    · intro x
      rw [hfe.2.2 x]
      by_cases hx0 : x = h.next
      · rw [if_pos (by simp [hx0]), hx0]
        exact (hwf h.next (le_refl _)).symm
      · by_cases hx1 : x = h.next + 1
        · rw [if_pos (by simp [hx1]), hx1]
          exact (hwf (h.next + 1) (by omega)).symm
        · rw [if_neg (by simp [hx0, hx1])]
          exact huntouched x hx0 hx1

/-! ## Characterizing `initLoadFlowParameters` and the list setter -/

/-- The struct after the list setter replaced the countries list. -/
def withCountries (p : load_flow_parameters) (np cnt : Nat) : load_flow_parameters :=
  { p with countriesToBalance := np, countriesToBalanceCount := cnt }

theorem lfpOf_intro (h : Heap) (a : Nat) (p : load_flow_parameters)
    (hm : h.mem a = some (.lfp p)) : lfpOf h a = some p := by
  simp [lfpOf, hm]

theorem toVectorString_after_store (hb : Heap) (vs : List String) (a1 : Nat)
    (b1 : Block) (ha1 : a1 < hb.next) :
    toVectorString ((copyVectorStringToCharPtrPtr hb vs).1.store a1 b1)
      (hb.next + vs.length) vs.length = some vs := by
  have hbase := toVectorString_copyVSS hb vs
  rw [copyVSS_snd] at hbase
  apply toVectorString_congr (copyVectorStringToCharPtrPtr hb vs).1 _ _ _ _ hbase
  · rw [store_mem_ne _ _ _ _ (by omega)]
  · intro a ha
    rw [← copyVSS_snd hb vs] at ha
    rw [strAddrs_copyVSS] at ha
    have := (mem_addrRange _ _ _).mp ha
    rw [store_mem_ne _ _ _ _ (by omega)]

theorem initLFP_spec (h : Heap) (config : load_flow_parameters) (tl : List String)
    (hwf : h.WF)
    (hread : toVectorString h config.countriesToBalance config.countriesToBalanceCount =
      some tl) :
    ∃ H P, initLoadFlowParameters h config = some (H, h.next) ∧
      P.countriesToBalance = h.next + 1 + tl.length ∧
      P.countriesToBalanceCount = tl.length ∧
      H.next = h.next + 1 + tl.length + 1 ∧ H.WF ∧
      H.mem h.next = some (.lfp P) ∧
      H.mem (h.next + 1 + tl.length) =
        some (.ptrArr (addrRange (h.next + 1) tl.length)) ∧
      (∀ i, i < tl.length → H.mem (h.next + 1 + i) = (tl[i]?).map Block.cstr) ∧
      (∀ x, x < h.next → H.mem x = h.mem x) := by
  have hbounds := toVectorString_lt_next h hwf _ _ tl hread
  have hr0 : toVectorString (h.alloc (.lfp ⟨0, 0, 0, 0, 0, 0, 0, 0, 0, 0, 0, 0, 0, 0⟩)).1
      config.countriesToBalance config.countriesToBalanceCount = some tl := by
    apply toVectorString_congr h _ _ _ _ hread
    · exact alloc_mem_ne h _ _ (by omega)
    · intro a ha
      exact alloc_mem_ne h _ _ (by have := hbounds.2 a ha; omega)
  have heq : initLoadFlowParameters h config =
      some ((copyVectorStringToCharPtrPtr
          (h.alloc (.lfp ⟨0, 0, 0, 0, 0, 0, 0, 0, 0, 0, 0, 0, 0, 0⟩)).1 tl).1.store h.next
        (.lfp ⟨config.voltageInitMode, config.transformerVoltageControlOn,
          config.noGeneratorReactiveLimits, config.phaseShifterRegulationOn,
          config.twtSplitShuntAdmittance, config.simulShunt, config.readSlackBus,
          config.writeSlackBus, config.distributedSlack, config.balanceType,
          config.dcUseTransformerRatioFlag, h.next + 1 + tl.length, tl.length,
          config.connectedComponentMode⟩), h.next) := by
    unfold initLoadFlowParameters
    simp [hr0, alloc_snd, alloc_next, copyVSS_snd]
  refine ⟨_, _, heq, rfl, rfl, ?_, ?_, store_mem_self _ _ _, ?_, ?_, ?_⟩
  · simp only [store_next, copyVSS_next, alloc_next]
  · intro a ha
    simp only [store_next, copyVSS_next, alloc_next] at ha
    rw [store_mem_ne _ _ _ _ (by omega), copyVSS_mem_hi _ _ _ (by
        simp only [alloc_next]; omega),
      alloc_mem_ne _ _ _ (by omega)]
    exact hwf a (by omega)
  · rw [store_mem_ne _ _ _ _ (by omega)]
    have := copyVSS_mem_ptr (h.alloc (.lfp ⟨0, 0, 0, 0, 0, 0, 0, 0, 0, 0, 0, 0, 0, 0⟩)).1 tl
    simp only [alloc_next] at this
    exact this
  · intro i hi
    rw [store_mem_ne _ _ _ _ (by omega)]
    have := copyVSS_mem_at (h.alloc (.lfp ⟨0, 0, 0, 0, 0, 0, 0, 0, 0, 0, 0, 0, 0, 0⟩)).1 tl i hi
    simp only [alloc_next] at this
    exact this
  · intro x hx
    rw [store_mem_ne _ _ _ _ (by omega),
      copyVSS_mem_lo _ _ _ (by simp only [alloc_next]; omega),
      alloc_mem_ne _ _ _ (by omega)]

theorem setCountries_spec (h : Heap) (pA : Nat) (P : load_flow_parameters)
    (ps : List Nat) (newVals : List String)
    (hpa : pA < h.next)
    (hmem : h.mem pA = some (.lfp P))
    (hptr : h.mem P.countriesToBalance = some (.ptrArr ps))
    (hn : P.countriesToBalanceCount ≤ ps.length)
    (hnd : (ps.take P.countriesToBalanceCount ++ [P.countriesToBalance]).Nodup)
    (hal : ∀ a ∈ ps.take P.countriesToBalanceCount, h.mem a ≠ none) :
    ∃ H, setCountriesToBalance h pA newVals = some H ∧
      H.mem pA = some (.lfp (withCountries P (h.next + newVals.length) newVals.length)) ∧
      toVectorString H (h.next + newVals.length) newVals.length = some newVals ∧
      ∀ x, x ∉ ps.take P.countriesToBalanceCount → x ≠ P.countriesToBalance →
        x ≠ pA → x < h.next → H.mem x = h.mem x := by
  obtain ⟨h1, hdel, hfe⟩ := deleteCharPtrPtr_spec h P.countriesToBalance
    P.countriesToBalanceCount ps hptr hn hnd hal
  have hn1 : h1.next = h.next := hfe.1
  have heq : setCountriesToBalance h pA newVals =
      some ((copyVectorStringToCharPtrPtr h1 newVals).1.store pA
        (.lfp (withCountries P (h.next + newVals.length) newVals.length))) := by
    unfold setCountriesToBalance
    rw [lfpOf_intro h pA P hmem]
    simp only [Option.some_bind]
    rw [hdel]
    simp only [Option.map_some', copyVSS_snd, hn1, withCountries]
  refine ⟨_, heq, store_mem_self _ _ _, ?_, ?_⟩
  · have := toVectorString_after_store h1 newVals pA
      (.lfp (withCountries P (h.next + newVals.length) newVals.length)) (by omega)
    rwa [hn1] at this
  · intro x hx1 hx2 hx3 hx4
    rw [store_mem_ne _ _ _ _ hx3, copyVSS_mem_lo _ _ _ (by omega), hfe.2.2 x,
      if_neg (by simp [hx1, hx2])]

/-! ## Isolation of materialized parameter structs -/

theorem paramsIsolation_spec (h : Heap) (config : load_flow_parameters)
    (tl newVals : List String) (hwf : h.WF)
    (hread : toVectorString h config.countriesToBalance
      config.countriesToBalanceCount = some tl) :
    ∃ H1 H2 H3,
      initLoadFlowParameters h config = some (H1, h.next) ∧
      initLoadFlowParameters H1 config = some (H2, H1.next) ∧
      setCountriesToBalance H2 h.next newVals = some H3 ∧
      (lfpOf H1 h.next).map load_flow_parameters.countriesToBalance =
        some (h.next + 1 + tl.length) ∧
      config.countriesToBalance < h.next ∧
      toVectorString H3 config.countriesToBalance config.countriesToBalanceCount =
        some tl ∧
      paramsCountries H3 H1.next = some tl ∧
      paramsCountries H3 h.next = some newVals := by
  have hbounds := toVectorString_lt_next h hwf _ _ tl hread
  obtain ⟨H1, P1, heq1, hP1ptr, hP1cnt, hN1, hWF1, hmemP1, hptrArr1, hstr1, hlo1⟩ :=
    initLFP_spec h config tl hwf hread
  have hread1 : toVectorString H1 config.countriesToBalance
      config.countriesToBalanceCount = some tl := by
    apply toVectorString_congr h H1 _ _ _ hread
    · exact hlo1 _ hbounds.1
    · intro a ha
      exact hlo1 a (hbounds.2 a ha)
  obtain ⟨H2, P2, heq2, hP2ptr, hP2cnt, hN2, hWF2, hmemP2, hptrArr2, hstr2, hlo2⟩ :=
    initLFP_spec H1 config tl hWF1 hread1
  have htake : (addrRange (h.next + 1) tl.length).take P1.countriesToBalanceCount =
      addrRange (h.next + 1) tl.length := by
    rw [hP1cnt]
    exact List.take_of_length_le (le_of_eq (addrRange_length _ _))
  obtain ⟨H3, heq3, hmemP1', hreadNew, huntouch3⟩ :=
    setCountries_spec H2 h.next P1 (addrRange (h.next + 1) tl.length) newVals
      (by omega)
      (by rw [hlo2 h.next (by omega)]; exact hmemP1)
      (by
        rw [hP1ptr, hlo2 (h.next + 1 + tl.length) (by omega)]
        exact hptrArr1)
      (by rw [hP1cnt, addrRange_length])
      (by
        rw [htake, hP1ptr]
        refine List.Nodup.append (addrRange_nodup _ _) (by simp) ?_
        intro a ha hb
        rw [mem_addrRange] at ha
        simp at hb
        omega)
      (by
        rw [htake]
        intro a ha
        rw [mem_addrRange] at ha
        rw [hlo2 a (by omega)]
        have hi : a = h.next + 1 + (a - (h.next + 1)) := by omega
        rw [hi, hstr1 (a - (h.next + 1)) (by omega),
          List.getElem?_eq_getElem (by omega)]
        simp)
  rw [htake] at huntouch3
  -- untouched template region, through all three steps
  have hchain : ∀ x, x < h.next → H3.mem x = h.mem x := by
    intro x hx
    rw [huntouch3 x (by
        intro hc
        rw [mem_addrRange] at hc
        omega)
      (by omega) (by omega) (by omega)]
    rw [hlo2 x (by omega), hlo1 x hx]
  refine ⟨H1, H2, H3, heq1, heq2, heq3, ?_, hbounds.1, ?_, ?_, ?_⟩
  · rw [lfpOf_intro H1 h.next P1 hmemP1]
    simp only [Option.map_some']
    rw [hP1ptr]
  · apply toVectorString_congr h H3 _ _ _ hread
    · exact hchain _ hbounds.1
    · intro a ha
      exact hchain a (hbounds.2 a ha)
  · -- the second copy still reads the template list
    have hmem2' : H3.mem H1.next = some (.lfp P2) := by
      rw [huntouch3 H1.next (by
          intro hc
          rw [mem_addrRange] at hc
          omega)
        (by omega) (by omega) (by omega)]
      exact hmemP2
    unfold paramsCountries
    rw [lfpOf_intro H3 H1.next P2 hmem2']
    simp only [Option.some_bind]
    rw [hP2ptr, hP2cnt]
    have hv2 : toVectorString H2 (H1.next + 1 + tl.length) tl.length = some tl := by
      refine toVectorString_intro H2 _ _ (addrRange (H1.next + 1) tl.length) tl
        hptrArr2 (le_of_eq (addrRange_length _ _).symm) ?_
      rw [List.take_of_length_le (le_of_eq (addrRange_length _ _))]
      exact readCStrList_addrRange tl H2 (H1.next + 1) fun i hi => hstr2 i hi
    apply toVectorString_congr H2 H3 _ _ _ hv2
    · rw [huntouch3 (H1.next + 1 + tl.length) (by
          intro hc
          rw [mem_addrRange] at hc
          omega)
        (by omega) (by omega) (by omega)]
    · intro a ha
      rw [strAddrs_of_mem H2 _ _ _ hptrArr2,
        List.take_of_length_le (le_of_eq (addrRange_length _ _))] at ha
      rw [mem_addrRange] at ha
      rw [huntouch3 a (by
          intro hc
          rw [mem_addrRange] at hc
          omega)
        (by omega) (by omega) (by omega)]
  · unfold paramsCountries
    rw [lfpOf_intro H3 h.next _ hmemP1']
    simp only [Option.some_bind, withCountries]
    exact hreadNew

/-! ## Concrete heaps and objects used by witnesses and counterexamples -/

/-- A double column spec used to exercise the numpy view. -/
def viewSpec : ColumnSpec := ⟨.dbls [42], "v", 1, false⟩

/-- The heap after building a one-column FLOAT64 dataframe from the empty
heap (header at 0, series array at 1, name at 2, data at 3). -/
def viewHeap : Heap := ((createDataframe emptyHeap [viewSpec]).getD (emptyHeap, 0)).1

/-- The single column of `viewHeap`'s dataframe. -/
def viewCol : series := ⟨2, 0, 1, ⟨some 3, 1⟩⟩

/-- The numpy view the `data` property builds over `viewCol`. -/
def viewArr : PyArray := ⟨1, 1, some 3, viewCol⟩

/-- A well-formed two-column frame (STRING and FLOAT64) used to witness
the release theorem. -/
def frameHeapA : Heap := mkHeap
  [(0, .dfHdr ⟨1, 2⟩),
   (1, .seriesArr [⟨2, 1, 0, ⟨some 5, 2⟩⟩, ⟨6, 0, 1, ⟨some 7, 3⟩⟩]),
   (2, .cstr "id"), (3, .cstr "a"), (4, .cstr "b"), (5, .ptrArr [3, 4]),
   (6, .cstr "v"), (7, .dblArr [10, 20, 30])] 8

/-- A frame whose single column carries the unrecognized type tag 9 and a
data pointer to a live `int[]` block. -/
def frameHeapB : Heap := mkHeap
  [(0, .dfHdr ⟨1, 1⟩), (1, .seriesArr [⟨2, 0, 9, ⟨some 3, 5⟩⟩]),
   (2, .cstr "x"), (3, .intArr [7])] 4

/-- Three one-column frames of row counts 2, 3 and 1 (headers at 0, 4 and
8), used to witness the dataframe-array theorem. -/
def arrHeap : Heap := mkHeap
  [(0, .dfHdr ⟨1, 1⟩), (1, .seriesArr [⟨2, 0, 2, ⟨some 3, 2⟩⟩]),
   (2, .cstr "a"), (3, .intArr [1, 2]),
   (4, .dfHdr ⟨5, 1⟩), (5, .seriesArr [⟨6, 0, 2, ⟨some 7, 3⟩⟩]),
   (6, .cstr "b"), (7, .intArr [3, 4, 5]),
   (8, .dfHdr ⟨9, 1⟩), (9, .seriesArr [⟨10, 0, 2, ⟨some 11, 1⟩⟩]),
   (10, .cstr "c"), (11, .intArr [6])] 12

/-- A process-wide template list storage: one country "FR". -/
def tmplHeap : Heap := mkHeap [(0, .ptrArr [1]), (1, .cstr "FR")] 2

/-- The configuration template whose list field points into `tmplHeap`. -/
def tmplConfig : load_flow_parameters := ⟨0, 0, 0, 0, 0, 0, 0, 0, 0, 0, 0, 0, 1, 0⟩

/-! ## The claims -/

/-- C1 (amended): building a single column via `createDataframe` and
reading it back through the `series.data` property reproduces the input
exactly for STRING (tag 0, materialized copies — the native storage can
still be released afterwards), FLOAT64 (tag 1) and INT32 (tag 2, for
values in `int` range).  For BOOL (tag 3) the property views the
`int`-encoded storage with a one-byte bool dtype, so the consumer reads
the byte reinterpretation `boolBytesLE` of the storage instead of the
input values; the round trip holds only when that reinterpretation is the
identity (for example for lists of length at most one). -/
theorem claim_C1_roundTrip (h : Heap) (nm : String) (idx : Bool) :
    (∀ vs : List String, roundTrip h ⟨.strs vs, nm, 0, idx⟩ = some (.ok (.strs vs)) ∧
      freeBuiltFrame h ⟨.strs vs, nm, 0, idx⟩ = true) ∧
    (∀ vs : List Nat, roundTrip h ⟨.dbls vs, nm, 1, idx⟩ = some (.ok (.dbls vs))) ∧
    (∀ vs : List Int, vs.all int32Ok = true →
      roundTrip h ⟨.ints vs, nm, 2, idx⟩ = some (.ok (.ints vs))) ∧
    (∀ vs : List Bool, roundTrip h ⟨.bools vs, nm, 3, idx⟩ =
      some (.ok (.bools (boolBytesLE (vs.map fun b => if b then 1 else 0) vs.length)))) :=
  ⟨fun vs => ⟨roundTrip_strs h vs nm idx, freeBuiltFrame_strs h vs nm idx⟩,
   fun vs => roundTrip_dbls h vs nm idx,
   fun vs hok => roundTrip_ints h vs nm idx hok,
   fun vs => roundTrip_bools h vs nm idx⟩

/-- C1 witness: a concrete INT32 round trip, discharging the range-check
hypothesis. -/
theorem claim_C1_roundTrip_witness :
    roundTrip emptyHeap ⟨.ints [5, -7], "i", 2, false⟩ = some (.ok (.ints [5, -7])) :=
  (claim_C1_roundTrip emptyHeap "i" false).2.2.1 [5, -7] (by decide)

/-- C1 counterexample: a BOOL column `[true, false, true]` views back as
`[true, false, false]` (bytes 1 and 2 of the little-endian `int` 1 are
zero), so the claimed round trip fails for BOOL. -/
theorem claim_C1_counterexample :
    roundTrip emptyHeap ⟨.bools [true, false, true], "b", 3, false⟩ =
      some (.ok (.bools [true, false, false])) ∧
    (ColumnValues.bools [true, false, false] ≠ .bools [true, false, true]) :=
  ⟨rfl, by decide⟩

/-- C2 (amended): for a numeric series (tag 1, 2 or 3) the `data`
property returns, without copying or touching the heap, a numpy view
whose dtype is the series tag, whose length and data pointer are exactly
the series' own (`ptr` aliases the native buffer), and whose base object
is a copy of the `series` struct itself — not a shared reference to the
owning dataframe. -/
theorem claim_C2_view_alias (h : Heap) (s : series)
    (ht : s.type = 1 ∨ s.type = 2 ∨ s.type = 3) :
    seriesData h s = some (.ok (.arr ⟨s.type, s.data.length, s.data.ptr, s⟩)) := by
  rcases ht with h1 | h2 | h3
  · simp [seriesData, seriesAsNumpyArray, h1]
  · simp [seriesData, seriesAsNumpyArray, h2]
  · simp [seriesData, seriesAsNumpyArray, h3]

/-- C2 witness: the concrete FLOAT64 column's view aliases address 3 and
carries the series struct as base. -/
theorem claim_C2_view_alias_witness :
    ((1 : Int) = 1 ∨ (1 : Int) = 2 ∨ (1 : Int) = 3) ∧
    seriesData viewHeap viewCol = some (.ok (.arr ⟨1, 1, some 3, viewCol⟩)) :=
  ⟨by decide, claim_C2_view_alias viewHeap viewCol (by decide)⟩

/-- C2 counterexample: the view does not keep the owning dataframe alive.
While the view exists, releasing the dataframe succeeds (nothing holds a
reference to it), and reading through the view afterwards hits freed
memory. -/
theorem claim_C2_counterexample :
    frameCols viewHeap 0 = some [viewCol] ∧
    seriesData viewHeap viewCol = some (.ok (.arr viewArr)) ∧
    readView viewHeap viewArr = some (.dbls [42]) ∧
    (deleteDataframe viewHeap 0).isSome = true ∧
    (deleteDataframe viewHeap 0).bind (fun h2 => readView h2 viewArr) = none :=
  ⟨rfl, rfl, rfl, rfl, rfl⟩

/-- C3 (amended): `createDataframe` does not validate the type tag.  For
a tag outside 0-3 the call succeeds: the header, the series array and the
column's name copy are allocated (three allocations), the tag is stored
on the column, and no data buffer is allocated (`ptr` stays unassigned).
The `UnsupportedTypeError` surfaces only later, when the series data
property is read (see C7). -/
theorem claim_C3_unknown_tag (h : Heap) (v : ColumnValues) (nm : String) (idx : Bool)
    (t : Int) (ht : ¬(t = 0 ∨ t = 1 ∨ t = 2 ∨ t = 3)) :
    ∃ H, createDataframe h [⟨v, nm, t, idx⟩] = some (H, h.next) ∧
      H.next = h.next + 3 ∧
      frameCols H h.next = some [⟨h.next + 2, if idx then 1 else 0, t, ⟨none, 0⟩⟩] ∧
      H.mem (h.next + 2) = some (.cstr nm) ∧
      (∀ x, x < h.next → H.mem x = h.mem x) :=
  createDataframe_unknown_spec h v nm idx t ht

/-- C3 witness: tag 9 on a fresh heap. -/
theorem claim_C3_unknown_tag_witness :
    ¬((9 : Int) = 0 ∨ (9 : Int) = 1 ∨ (9 : Int) = 2 ∨ (9 : Int) = 3) ∧
    ∃ H, createDataframe emptyHeap [⟨.ints [1, 2], "c", 9, false⟩] = some (H, 0) ∧
      H.next = 3 ∧
      frameCols H 0 = some [⟨2, 0, 9, ⟨none, 0⟩⟩] ∧
      H.mem 2 = some (.cstr "c") ∧
      (∀ x, x < 0 → H.mem x = emptyHeap.mem x) :=
  ⟨by decide, claim_C3_unknown_tag emptyHeap (.ints [1, 2]) "c" false 9 (by decide)⟩

/-- C3 counterexample: requesting tag 9 does not fail — the call returns
a dataframe whose column carries tag 9, and the name storage was
allocated, contradicting "fails with UnsupportedTypeError and allocates
nothing". -/
theorem claim_C3_counterexample :
    (createDataframe emptyHeap [⟨.ints [1, 2], "t9", 9, false⟩]).isSome = true ∧
    frameCols ((createDataframe emptyHeap
      [⟨.ints [1, 2], "t9", 9, false⟩]).getD (emptyHeap, 0)).1 0 =
        some [⟨2, 0, 9, ⟨none, 0⟩⟩] ∧
    ((createDataframe emptyHeap [⟨.ints [1, 2], "t9", 9, false⟩]).getD
      (emptyHeap, 0)).1.mem 2 = some (.cstr "t9") :=
  ⟨rfl, rfl, rfl⟩

/-- C4: releasing a well-formed dataframe whose columns all carry
supported tags frees exactly its owned addresses, in order — for each
column, for STRING every individual string then the pointer array, for
FLOAT64/INT32/BOOL the flat array, then the column's name; after all
columns, the series array and finally the header (this order is
`ownedAddrs`, appended to the free log) — each address exactly once
(count 1 in the freed segment) and nothing else (every other address is
untouched). -/
theorem claim_C4_release_order (h : Heap) (dfA : Nat) (hwf : DFrameWF h dfA)
    (hsup : ∀ c ∈ (frameCols h dfA).getD [],
      c.type = 0 ∨ c.type = 1 ∨ c.type = 2 ∨ c.type = 3) :
    ∃ h', deleteDataframe h dfA = some h' ∧
      h'.log = h.log ++ ownedAddrs h dfA ∧
      (∀ x, h'.mem x = if x ∈ ownedAddrs h dfA then none else h.mem x) ∧
      ∀ a, (h'.log.drop h.log.length).count a =
        if a ∈ ownedAddrs h dfA then 1 else 0 := by
  obtain ⟨h', hdel, hfe⟩ := deleteDataframe_spec h dfA hwf
  refine ⟨h', hdel, hfe.2.1, hfe.2.2, fun a => ?_⟩
  rw [hfe.2.1, List.drop_left]
  by_cases ha : a ∈ ownedAddrs h dfA
  · rw [if_pos ha]
    exact List.count_eq_one_of_mem hwf.2.2.2.1 ha
  · rw [if_neg ha]
    exact List.count_eq_zero_of_not_mem ha

/-- C4 witness: the two-column STRING + FLOAT64 frame, released in the
claimed order `[3, 4, 5, 2, 7, 6, 1, 0]`. -/
theorem claim_C4_release_order_witness :
    DFrameWF frameHeapA 0 ∧
    ∃ h', deleteDataframe frameHeapA 0 = some h' ∧
      h'.log = frameHeapA.log ++ ownedAddrs frameHeapA 0 ∧
      (∀ x, h'.mem x = if x ∈ ownedAddrs frameHeapA 0 then none else frameHeapA.mem x) ∧
      ∀ a, (h'.log.drop frameHeapA.log.length).count a =
        if a ∈ ownedAddrs frameHeapA 0 then 1 else 0 :=
  ⟨by decide, claim_C4_release_order frameHeapA 0 (by decide) (by decide)⟩

/-- C5: `createDataframeArray` copies only the dataframe headers, in
input order, into one fresh contiguous block, records the input count,
performs exactly two allocations (header block and struct) and touches no
existing memory — the column buffers are referenced through the copied
headers, not duplicated; releasing the array frees exactly those two
blocks (log `[headers, struct]`) and restores the heap pointwise, leaving
every column buffer and name untouched. -/
theorem claim_C5_array_shallow_copy (h : Heap) (dfAddrs : List Nat)
    (hwf : h.WF) (hl : ∀ a ∈ dfAddrs, (frameHdr h a).isSome = true) :
    ∃ H dfs, readHeaders h dfAddrs = some dfs ∧
      createDataframeArray h dfAddrs = some (H, h.next) ∧
      H.next = h.next + 2 ∧ H.log = h.log ∧
      arrayHdr H h.next = some ⟨h.next + 1, dfAddrs.length⟩ ∧
      H.mem (h.next + 1) = some (.dfArr dfs) ∧
      (∀ x, x ≠ h.next → x ≠ h.next + 1 → H.mem x = h.mem x) ∧
      ∃ H', deleteDataframeArray H h.next = some H' ∧
        H'.log = h.log ++ [h.next + 1, h.next] ∧
        ∀ x, H'.mem x = h.mem x :=
  createDataframeArray_spec h dfAddrs hwf hl

/-- C5 witness: three frames of row counts 2, 3 and 1, aggregated in
order. -/
theorem claim_C5_array_shallow_copy_witness :
    arrHeap.WF ∧
    ∃ H dfs, readHeaders arrHeap [0, 4, 8] = some dfs ∧
      createDataframeArray arrHeap [0, 4, 8] = some (H, 12) ∧
      H.next = 12 + 2 ∧ H.log = arrHeap.log ∧
      arrayHdr H 12 = some ⟨12 + 1, 3⟩ ∧
      H.mem (12 + 1) = some (.dfArr dfs) ∧
      (∀ x, x ≠ 12 → x ≠ 12 + 1 → H.mem x = arrHeap.mem x) ∧
      ∃ H', deleteDataframeArray H 12 = some H' ∧
        H'.log = arrHeap.log ++ [12 + 1, 12] ∧
        ∀ x, H'.mem x = arrHeap.mem x :=
  ⟨mkHeap_WF _ _ (by decide),
   claim_C5_array_shallow_copy arrHeap [0, 4, 8] (mkHeap_WF _ _ (by decide))
     (by decide)⟩

/-- C6: materializing default parameters twice deep-copies the template's
country list into fresh storage each time (the first copy's list pointer
is the fresh address `h.next + 1 + tl.length`, distinct from the
template's, which lies below `h.next`); mutating the first copy's list
through the setter leaves both the template's list and the second copy's
list unchanged, while the first copy reads back the new values. -/
theorem claim_C6_params_isolation (h : Heap) (config : load_flow_parameters)
    (tl newVals : List String) (hwf : h.WF)
    (hread : toVectorString h config.countriesToBalance
      config.countriesToBalanceCount = some tl) :
    ∃ H1 H2 H3,
      initLoadFlowParameters h config = some (H1, h.next) ∧
      initLoadFlowParameters H1 config = some (H2, H1.next) ∧
      setCountriesToBalance H2 h.next newVals = some H3 ∧
      (lfpOf H1 h.next).map load_flow_parameters.countriesToBalance =
        some (h.next + 1 + tl.length) ∧
      config.countriesToBalance < h.next ∧
      toVectorString H3 config.countriesToBalance config.countriesToBalanceCount =
        some tl ∧
      paramsCountries H3 H1.next = some tl ∧
      paramsCountries H3 h.next = some newVals :=
  paramsIsolation_spec h config tl newVals hwf hread

/-- C6 witness: template list `["FR"]`, first copy mutated to
`["BE", "DE"]`. -/
theorem claim_C6_params_isolation_witness :
    tmplHeap.WF ∧
    toVectorString tmplHeap 0 1 = some ["FR"] ∧
    ∃ H1 H2 H3,
      initLoadFlowParameters tmplHeap tmplConfig = some (H1, 2) ∧
      initLoadFlowParameters H1 tmplConfig = some (H2, H1.next) ∧
      setCountriesToBalance H2 2 ["BE", "DE"] = some H3 ∧
      (lfpOf H1 2).map load_flow_parameters.countriesToBalance = some (2 + 1 + 1) ∧
      tmplConfig.countriesToBalance < 2 ∧
      toVectorString H3 0 1 = some ["FR"] ∧
      paramsCountries H3 H1.next = some ["FR"] ∧
      paramsCountries H3 2 = some ["BE", "DE"] :=
  ⟨mkHeap_WF _ _ (by decide), rfl,
   claim_C6_params_isolation tmplHeap tmplConfig ["FR"] ["BE", "DE"]
     (mkHeap_WF _ _ (by decide)) rfl⟩

/-- C7: reading the `data` property of a series whose type tag is outside
0-3 throws `PyPowsyblError` ("Series type not supported: ...", the
`UnsupportedTypeError` of the spec) instead of returning data. -/
theorem claim_C7_unsupported_view (h : Heap) (s : series)
    (ht : ¬(s.type = 0 ∨ s.type = 1 ∨ s.type = 2 ∨ s.type = 3)) :
    seriesData h s = some (.error ("Series type not supported: " ++ toString s.type)) := by
  push_neg at ht
  obtain ⟨h0, h1, h2, h3⟩ := ht
  simp [seriesData, h0, h1, h2, h3]

/-- C7 witness: tag 9. -/
theorem claim_C7_unsupported_view_witness :
    ¬((9 : Int) = 0 ∨ (9 : Int) = 1 ∨ (9 : Int) = 2 ∨ (9 : Int) = 3) ∧
    seriesData emptyHeap ⟨0, 0, 9, ⟨none, 0⟩⟩ =
      some (.error "Series type not supported: 9") :=
  ⟨by decide, claim_C7_unsupported_view emptyHeap ⟨0, 0, 9, ⟨none, 0⟩⟩ (by decide)⟩

/-- C8: aggregating an empty sequence of dataframes yields a valid
dataframe array with count 0, and releasing it succeeds. -/
theorem claim_C8_empty_array (h : Heap) :
    ∃ H, createDataframeArray h [] = some (H, h.next) ∧
      arrayHdr H h.next = some ⟨h.next + 1, 0⟩ ∧
      (deleteDataframeArray H h.next).isSome = true :=
  createDataframeArray_empty_spec h

/-- C9 (amended): `createDataframe` performs no validation of column
names — any name, the empty string included, is accepted and copied
verbatim into the column's name storage. -/
theorem claim_C9_no_name_validation (h : Heap) (nm : String) (idx : Bool)
    (vs : List Int) (hok : vs.all int32Ok = true) :
    ∃ H, createDataframe h [⟨.ints vs, nm, 2, idx⟩] = some (H, h.next) ∧
      H.mem (h.next + 2) = some (.cstr nm) :=
  createDataframe_name_spec h nm idx vs hok

/-- C9 witness: the empty column name is accepted and stored. -/
theorem claim_C9_no_name_validation_witness :
    ([(-3 : Int)].all int32Ok = true) ∧
    ∃ H, createDataframe emptyHeap [⟨.ints [-3], "", 2, false⟩] = some (H, 0) ∧
      H.mem 2 = some (.cstr "") :=
  ⟨by decide, claim_C9_no_name_validation emptyHeap "" false [-3] (by decide)⟩

/-- C9 counterexample: an input with an empty column name is not
rejected — the dataframe is assembled and the empty name stored. -/
theorem claim_C9_counterexample :
    (createDataframe emptyHeap [⟨.ints [], "", 2, false⟩]).isSome = true ∧
    ((createDataframe emptyHeap [⟨.ints [], "", 2, false⟩]).getD
      (emptyHeap, 0)).1.mem 2 = some (.cstr "") :=
  ⟨rfl, rfl⟩

/-- C10 (implicit): `deleteDataframe` completes without error on a
well-formed frame even when a column's type tag is outside 0-3: it frees
that column's name, the series array and the header as usual, but leaves
the column's data buffer untouched — the column's owned-address list is
just its name, so no free is attempted for its buffer. -/
theorem claim_C10_unknown_type_release (h : Heap) (dfA : Nat) (c : series) (p : Nat)
    (hwf : DFrameWF h dfA)
    (hc : c ∈ (frameCols h dfA).getD [])
    (ht : ¬(c.type = 0 ∨ c.type = 1 ∨ c.type = 2 ∨ c.type = 3))
    (hp : c.data.ptr = some p) (hpo : p ∉ ownedAddrs h dfA) :
    colOwnedAddrs h c = [c.name] ∧
    ∃ h', deleteDataframe h dfA = some h' ∧
      h'.mem p = h.mem p ∧ h'.mem c.name = none ∧ h'.mem dfA = none := by
  have ht' := ht
  push_neg at ht'
  obtain ⟨t0, t1, t2, t3⟩ := ht'
  have hco : colOwnedAddrs h c = [c.name] :=
    (colOwnedAddrs_other h c t0 (by simp [t1, t2, t3])).trans rfl
  refine ⟨hco, ?_⟩
  cases hcols : frameCols h dfA with
  | none =>
    have := hwf.1
    rw [hcols] at this
    simp at this
  | some cols =>
    obtain ⟨df, hh, hs⟩ := frameCols_elim h dfA cols hcols
    have hcount : df.series_count = cols.length := by
      have := hwf.2.1
      rw [hcols, hh] at this
      simpa using this
    have howned := ownedAddrs_eq h dfA df cols hh hs hcount
    have hcc : c ∈ cols := by
      rw [hcols] at hc
      simpa using hc
    have hnameo : c.name ∈ ownedAddrs h dfA := by
      rw [howned]
      exact List.mem_append_left _
        (mem_flatOwned_of_mem h c.name cols c hcc (name_mem_colOwnedAddrs h c))
    have hdfo : dfA ∈ ownedAddrs h dfA := by
      rw [howned]
      simp
    obtain ⟨h', hdel, hfe⟩ := deleteDataframe_spec h dfA hwf
    refine ⟨h', hdel, ?_, ?_, ?_⟩
    · rw [hfe.2.2 p, if_neg hpo]
    · rw [hfe.2.2 c.name, if_pos hnameo]
    · rw [hfe.2.2 dfA, if_pos hdfo]

/-- C10 witness: the tag-9 frame — release succeeds, the name at 2 and
header at 0 are freed, and the data buffer at 3 survives. -/
theorem claim_C10_unknown_type_release_witness :
    DFrameWF frameHeapB 0 ∧
    (colOwnedAddrs frameHeapB ⟨2, 0, 9, ⟨some 3, 5⟩⟩ = [2] ∧
    ∃ h', deleteDataframe frameHeapB 0 = some h' ∧
      h'.mem 3 = frameHeapB.mem 3 ∧ h'.mem 2 = none ∧ h'.mem 0 = none) :=
  ⟨by decide,
   claim_C10_unknown_type_release frameHeapB 0 ⟨2, 0, 9, ⟨some 3, 5⟩⟩ 3
     (by decide) (by decide) (by decide) rfl (by decide)⟩

end Pypowsybl
